import Mathlib

/-!
Verification of the Open Media Management metadata/index store and job
orchestration engine.  The Valkey (Redis-compatible) store is modelled as a
collection of association lists, one per keyspace; each TypeScript operation
from `src/lib/metadata.ts`, `src/lib/osc.ts` and the server's
`triggerProxyGeneration` is translated into a pure Lean function over that
state.  Timestamps (`new Date()` / `Date.now()`) are threaded explicitly as
natural-number clock arguments.
-/

set_option autoImplicit false

namespace OMM

/-! ## Key-value primitives (the Redis commands the code uses) -/

/-- GET: first entry with the given key. -/
def kvGet {α : Type} : List (String × α) → String → Option α
  | [], _ => none
  | (k', v) :: rest, k => if k' = k then some v else kvGet rest k

/-- SET: replace the entry with the given key, or append a fresh one. -/
def kvSet {α : Type} : List (String × α) → String → α → List (String × α)
  | [], k, v => [(k, v)]
  | (k', v') :: rest, k, v =>
      if k' = k then (k, v) :: rest else (k', v') :: kvSet rest k v

/-- DEL / ZREM: drop the entry with the given key. -/
def kvDel {α : Type} : List (String × α) → String → List (String × α)
  | [], _ => []
  | (k', v') :: rest, k => if k' = k then rest else (k', v') :: kvDel rest k

/-- SADD on a plain member list: add the member if absent. -/
def sadd (s : List String) (x : String) : List String :=
  if x ∈ s then s else s ++ [x]

/-- SREM on a plain member list: remove every occurrence of the member. -/
def srem : List String → String → List String
  | [], _ => []
  | y :: rest, x => if y = x then srem rest x else y :: srem rest x

/-- SADD against a keyspace of sets (creates the set when missing). -/
def mapSadd (m : List (String × List String)) (k x : String) :
    List (String × List String) :=
  kvSet m k (sadd ((kvGet m k).getD []) x)

/-- SREM against a keyspace of sets (no-op when the key is missing). -/
def mapSrem (m : List (String × List String)) (k x : String) :
    List (String × List String) :=
  match kvGet m k with
  | none => m
  | some s => kvSet m k (srem s x)

/-- ZINCRBY on the tag sorted set: add `d` to the member's score,
creating the member at score `d` when absent. -/
def zincrby (m : List (String × Int)) (d : Int) (t : String) :
    List (String × Int) :=
  kvSet m t ((kvGet m t).getD 0 + d)

/-- Score lookup with Redis's implicit 0 for absent members. -/
def tagScore (m : List (String × Int)) (t : String) : Int :=
  (kvGet m t).getD 0

/-- ZREMRANGEBYSCORE -inf 0: drop every member with score ≤ 0. -/
def pruneNonPositive (m : List (String × Int)) : List (String × Int) :=
  m.filter (fun p => decide (0 < p.2))

/-! ## Data model (`Asset`, `Collection`) -/

inductive ProxyStatus where
  | pending
  | processing
  | ready
  | failed
  | none
  deriving DecidableEq, Repr

structure Asset where
  id : String
  filename : String
  mimeType : String
  fileSize : Int
  duration : Option Int
  resolution : Option String
  codec : Option String
  title : String
  description : String
  tags : List String
  customMeta : List (String × String)
  minioKey : String
  proxyKey : Option String
  thumbnailKey : Option String
  posterKey : Option String
  proxyStatus : ProxyStatus
  collections : List String
  createdAt : Nat
  updatedAt : Nat
  deriving DecidableEq, Repr

structure Collection where
  id : String
  name : String
  description : String
  coverAssetId : Option String
  assetCount : Int
  createdAt : Nat
  updatedAt : Nat
  deriving DecidableEq, Repr

/-- `Omit<Asset, "id" | "createdAt" | "updatedAt">`: the caller-supplied
fields of `createAsset`. -/
structure AssetInput where
  filename : String
  mimeType : String
  fileSize : Int
  duration : Option Int
  resolution : Option String
  codec : Option String
  title : String
  description : String
  tags : List String
  customMeta : List (String × String)
  minioKey : String
  proxyKey : Option String
  thumbnailKey : Option String
  posterKey : Option String
  proxyStatus : ProxyStatus
  collections : List String
  deriving DecidableEq, Repr

/-- `Partial<Asset>`: a field is `none` when the caller omitted it.  For
fields that are themselves optional in `Asset`, `some Option.none` models an
explicitly supplied `undefined`. -/
structure AssetUpdate where
  id : Option String := Option.none
  filename : Option String := Option.none
  mimeType : Option String := Option.none
  fileSize : Option Int := Option.none
  duration : Option (Option Int) := Option.none
  resolution : Option (Option String) := Option.none
  codec : Option (Option String) := Option.none
  title : Option String := Option.none
  description : Option String := Option.none
  tags : Option (List String) := Option.none
  customMeta : Option (List (String × String)) := Option.none
  minioKey : Option String := Option.none
  proxyKey : Option (Option String) := Option.none
  thumbnailKey : Option (Option String) := Option.none
  posterKey : Option (Option String) := Option.none
  proxyStatus : Option ProxyStatus := Option.none
  collections : Option (List String) := Option.none
  createdAt : Option Nat := Option.none
  updatedAt : Option Nat := Option.none
  deriving DecidableEq, Repr

/-- The store: one association list per Valkey keyspace used by
`metadata.ts` (`asset:*`, `assets:index`, `tags:all`,
`assets:by-collection:*`, `collection:*`, `collections:index`,
`search:word:*`). -/
structure Store where
  assets : List (String × Asset)
  assetsIndex : List (String × Nat)
  tagsAll : List (String × Int)
  byCollection : List (String × List String)
  collections : List (String × Collection)
  collectionsIndex : List (String × Nat)
  searchWord : List (String × List String)
  deriving DecidableEq, Repr

def emptyStore : Store :=
  { assets := [], assetsIndex := [], tagsAll := [], byCollection := [],
    collections := [], collectionsIndex := [], searchWord := [] }

/-! ## Tokenizer (`extractWords` and the query tokenizer) -/

/-- `toLowerCase()` (the char-wise model of `String.toLower`, written so
that it reduces in the kernel). -/
def lower (s : String) : String := String.mk (s.data.map Char.toLower)

/-- `String.prototype.startsWith`, char-wise. -/
def charsStartWith : List Char → List Char → Bool
  | _, [] => true
  | [], _ :: _ => false
  | c :: cs, d :: ds => c = d && charsStartWith cs ds

def strStarts (s p : String) : Bool := charsStartWith s.toList p.toList

/-- Character class of the regex `[a-z0-9À-ɏ]`. -/
def isWordChar (c : Char) : Bool :=
  (decide ('a' ≤ c) && decide (c ≤ 'z')) ||
  (decide ('0' ≤ c) && decide (c ≤ '9')) ||
  (decide (0xC0 ≤ c.toNat) && decide (c.toNat ≤ 0x24F))

/-- Maximal runs of word characters, i.e. `text.match(/[a-z0-9À-ɏ]+/g)`
(with `null` represented as `[]`). -/
def tokenizeAux : List Char → List Char → List String
  | [], acc => if acc.isEmpty then [] else [String.mk acc.reverse]
  | c :: cs, acc =>
      if isWordChar c then tokenizeAux cs (c :: acc)
      else if acc.isEmpty then tokenizeAux cs acc
      else String.mk acc.reverse :: tokenizeAux cs []

def tokenize (s : String) : List String := tokenizeAux s.toList []

/-- `[...new Set(words)]`: deduplicate keeping first occurrences. -/
def dedupFirstAux : List String → List String → List String
  | [], _ => []
  | x :: rest, seen =>
      if x ∈ seen then dedupFirstAux rest seen
      else x :: dedupFirstAux rest (x :: seen)

def dedupFirst (l : List String) : List String := dedupFirstAux l []

/-- `extractWords`: join title, description and tags with spaces, lowercase,
split into word runs, deduplicate, and keep words of length ≥ 2. -/
def extractWords (a : Asset) : List String :=
  (dedupFirst (tokenize (lower
    (String.intercalate " " (a.title :: a.description :: a.tags))))).filter
    (fun w => decide (2 ≤ w.length))

/-! ## Search index helpers -/

def indexAssetForSearch (s : Store) (a : Asset) : Store :=
  { s with searchWord :=
      (extractWords a).foldl (fun m w => mapSadd m w a.id) s.searchWord }

def removeAssetFromSearchIndex (s : Store) (a : Asset) : Store :=
  { s with searchWord :=
      (extractWords a).foldl (fun m w => mapSrem m w a.id) s.searchWord }

/-! ## Asset CRUD -/

def buildAsset (input : AssetInput) (id : String) (now : Nat) : Asset :=
  { id := id
    filename := input.filename
    mimeType := input.mimeType
    fileSize := input.fileSize
    duration := input.duration
    resolution := input.resolution
    codec := input.codec
    title := input.title
    description := input.description
    tags := input.tags
    customMeta := input.customMeta
    minioKey := input.minioKey
    proxyKey := input.proxyKey
    thumbnailKey := input.thumbnailKey
    posterKey := input.posterKey
    proxyStatus := input.proxyStatus
    collections := input.collections
    createdAt := now
    updatedAt := now }

/-- `createAsset`: store the record, add it to the ordering index, bump tag
counters (case-folded), join the listed collections, then index its words. -/
def createAsset (s : Store) (now : Nat) (id : String) (input : AssetInput) :
    Asset × Store :=
  let asset := buildAsset input id now
  let s1 := { s with assets := kvSet s.assets asset.id asset }
  let s2 := { s1 with assetsIndex := kvSet s1.assetsIndex asset.id now }
  let s3 := { s2 with tagsAll :=
      asset.tags.foldl (fun m tag => zincrby m 1 (lower tag)) s2.tagsAll }
  let s4 := { s3 with byCollection :=
      (asset.collections.foldl (fun m cid => mapSadd m cid asset.id)
        s3.byCollection) }
  (asset, indexAssetForSearch s4 asset)

def getAsset (s : Store) (id : String) : Option Asset := kvGet s.assets id

/-- `{...existing, ...updates, id, createdAt, updatedAt}`: merge the supplied
fields over the existing record, protecting the immutable fields. -/
def applyUpdate (a : Asset) (u : AssetUpdate) (now : Nat) : Asset :=
  { id := a.id
    filename := u.filename.getD a.filename
    mimeType := u.mimeType.getD a.mimeType
    fileSize := u.fileSize.getD a.fileSize
    duration := u.duration.getD a.duration
    resolution := u.resolution.getD a.resolution
    codec := u.codec.getD a.codec
    title := u.title.getD a.title
    description := u.description.getD a.description
    tags := u.tags.getD a.tags
    customMeta := u.customMeta.getD a.customMeta
    minioKey := u.minioKey.getD a.minioKey
    proxyKey := u.proxyKey.getD a.proxyKey
    thumbnailKey := u.thumbnailKey.getD a.thumbnailKey
    posterKey := u.posterKey.getD a.posterKey
    proxyStatus := u.proxyStatus.getD a.proxyStatus
    collections := u.collections.getD a.collections
    createdAt := a.createdAt
    updatedAt := now }

/-- `updateAsset`: de-index the old words, persist the merged record, apply
the case-folded tag-count deltas and the collection-membership deltas, then
re-index the merged record's words. -/
def updateAsset (s : Store) (now : Nat) (id : String) (u : AssetUpdate) :
    Option Asset × Store :=
  match getAsset s id with
  | Option.none => (Option.none, s)
  | some existing =>
    let s1 := removeAssetFromSearchIndex s existing
    let oldTags := existing.tags.map lower
    let newTags := (u.tags.getD existing.tags).map lower
    let merged := applyUpdate existing u now
    let s2 := { s1 with assets := kvSet s1.assets id merged }
    let addedTags := newTags.filter (fun t => decide (t ∉ oldTags))
    let removedTags := oldTags.filter (fun t => decide (t ∉ newTags))
    let s3 := { s2 with tagsAll :=
        (removedTags.foldl (fun m t => zincrby m (-1) t)
          (addedTags.foldl (fun m t => zincrby m 1 t) s2.tagsAll)) }
    let oldCols := existing.collections
    let newCols := u.collections.getD existing.collections
    let addedCols := newCols.filter (fun c => decide (c ∉ oldCols))
    let removedCols := oldCols.filter (fun c => decide (c ∉ newCols))
    let s4 := { s3 with byCollection :=
        (removedCols.foldl (fun m c => mapSrem m c id)
          (addedCols.foldl (fun m c => mapSadd m c id) s3.byCollection)) }
    (some merged, indexAssetForSearch s4 merged)

/-- `deleteAsset`: de-index the words, drop the record and its ordering-index
entry, decrement the case-folded tag counters, leave every listed collection,
then prune counters with score ≤ 0. -/
def deleteAsset (s : Store) (id : String) : Bool × Store :=
  match getAsset s id with
  | Option.none => (false, s)
  | some asset =>
    let s1 := removeAssetFromSearchIndex s asset
    let s2 := { s1 with assets := kvDel s1.assets id }
    let s3 := { s2 with assetsIndex := kvDel s2.assetsIndex id }
    let s4 := { s3 with tagsAll :=
        asset.tags.foldl (fun m tag => zincrby m (-1) (lower tag)) s3.tagsAll }
    let s5 := { s4 with byCollection :=
        (asset.collections.foldl (fun m cid => mapSrem m cid id)
          s4.byCollection) }
    (true, { s5 with tagsAll := pruneNonPositive s5.tagsAll })

/-! ## Search (`searchAssets`) -/

/-- Stable insertion of an asset into a list kept in descending `createdAt`
order (model of the JS comparator `b.createdAt.localeCompare(a.createdAt)`,
ISO timestamps compare chronologically). -/
def insertDesc (a : Asset) : List Asset → List Asset
  | [] => [a]
  | b :: rest =>
      if a.createdAt ≤ b.createdAt then b :: insertDesc a rest
      else a :: b :: rest

def sortByCreatedDesc : List Asset → List Asset
  | [] => []
  | a :: rest => insertDesc a (sortByCreatedDesc rest)

/-- Ids matching every word key: `SMEMBERS` for one key, `SINTER` for
several (represented as the first set filtered by membership in the rest). -/
def intersectWordSets (s : Store) : List String → List String
  | [] => []
  | [w] => (kvGet s.searchWord w).getD []
  | w :: rest =>
      ((kvGet s.searchWord w).getD []).filter
        (fun i => rest.all (fun w' => decide (i ∈ (kvGet s.searchWord w').getD [])))

/-- `searchAssets`: clamp paging, tokenize the lowercased query, drop tokens
shorter than 2, intersect the word sets, bulk-fetch, apply the optional MIME
prefix filter, sort by creation time descending, and paginate. -/
def searchAssets (s : Store) (query : String)
    (pageOpt limitOpt : Option Int) (typeOpt : Option String) :
    List Asset × Nat :=
  let page := max 1 (pageOpt.getD 1)
  let limit := min 100 (max 1 (limitOpt.getD 20))
  let queryWords := tokenize (lower query)
  if queryWords.isEmpty then ([], 0) else
  let wordKeys := queryWords.filter (fun w => decide (2 ≤ w.length))
  if wordKeys.isEmpty then ([], 0) else
  let matchingIds := intersectWordSets s wordKeys
  if matchingIds.isEmpty then ([], 0) else
  let fetched := matchingIds.filterMap (fun i => kvGet s.assets i)
  let filtered := match typeOpt.map lower with
    | Option.none => fetched
    | some tf => fetched.filter (fun a => strStarts (lower a.mimeType) tf)
  let sorted := sortByCreatedDesc filtered
  let start := ((page - 1) * limit).toNat
  ((sorted.drop start).take limit.toNat, filtered.length)

/-! ## Collections -/

def getCollection (s : Store) (id : String) : Option Collection :=
  kvGet s.collections id

/-- `deleteCollection`: remove the collection record, its index entry, and
its membership set, then re-read every member asset and rewrite it with the
collection id dropped from its `collections` field.  Returns `false` when the
collection is absent. -/
def deleteCollection (s : Store) (now : Nat) (id : String) : Bool × Store :=
  match getCollection s id with
  | Option.none => (false, s)
  | some _ =>
    let memberIds := (kvGet s.byCollection id).getD []
    let s1 := { s with collections := kvDel s.collections id }
    let s2 := { s1 with collectionsIndex := kvDel s1.collectionsIndex id }
    let s3 := { s2 with byCollection := kvDel s2.byCollection id }
    let fetched := memberIds.filterMap (fun aid => kvGet s3.assets aid)
    let s4 := { s3 with assets :=
        (fetched.foldl (fun m a =>
          kvSet m a.id
            { a with
              collections := a.collections.filter (fun c => decide (c ≠ id)),
              updatedAt := now }) s3.assets) }
    (true, s4)

/-- `addAssetToCollection`: `none` models the thrown not-found errors; if the
asset is already a member nothing changes; otherwise the membership set, the
asset's `collections` back-reference and the denormalized count are updated
in one batch. -/
def addAssetToCollection (s : Store) (now : Nat)
    (collectionId assetId : String) : Option Store :=
  match getCollection s collectionId, getAsset s assetId with
  | Option.none, _ => Option.none
  | some _, Option.none => Option.none
  | some collection, some asset =>
    if assetId ∈ (kvGet s.byCollection collectionId).getD [] then some s
    else
      let s1 := { s with byCollection := mapSadd s.byCollection collectionId assetId }
      let asset1 := { asset with
                      collections := asset.collections ++ [collectionId],
                      updatedAt := now }
      let s2 := { s1 with assets := kvSet s1.assets assetId asset1 }
      let collection1 := { collection with
                           assetCount := collection.assetCount + 1,
                           updatedAt := now }
      some { s2 with collections := kvSet s2.collections collectionId collection1 }

/-- `removeAssetFromCollection`: mirror image of the add, with the count
clamped at zero and the cover asset cleared when it is the one removed. -/
def removeAssetFromCollection (s : Store) (now : Nat)
    (collectionId assetId : String) : Option Store :=
  match getCollection s collectionId, getAsset s assetId with
  | Option.none, _ => Option.none
  | some _, Option.none => Option.none
  | some collection, some asset =>
    if assetId ∉ (kvGet s.byCollection collectionId).getD [] then some s
    else
      let s1 := { s with byCollection := mapSrem s.byCollection collectionId assetId }
      let asset1 := { asset with
                      collections := asset.collections.filter (fun c => decide (c ≠ collectionId)),
                      updatedAt := now }
      let s2 := { s1 with assets := kvSet s1.assets assetId asset1 }
      let collection1 := { collection with
                           assetCount := max 0 (collection.assetCount - 1),
                           updatedAt := now,
                           coverAssetId :=
                             (if collection.coverAssetId = some assetId
                              then Option.none else collection.coverAssetId) }
      some { s2 with collections := kvSet s2.collections collectionId collection1 }

/-! ## FFmpeg job polling (`osc.ts`) -/

/-- Outcome of one `getInstance` status query: the call can throw, report a
missing instance, or return an instance whose `status` field may be absent. -/
inductive StatusQueryResult where
  | threw
  | notFound
  | found (status : Option String)
  deriving DecidableEq, Repr

/-- `getFfmpegJobStatus`: failures and missing instances both collapse to
`"unknown"`; the function never raises. -/
def getFfmpegJobStatus : StatusQueryResult → String
  | StatusQueryResult.threw => "unknown"
  | StatusQueryResult.notFound => "unknown"
  | StatusQueryResult.found st => st.getD "unknown"

def terminalStatuses : List String := ["Complete", "Failed", "Error"]

/-- The polling loop of `waitForFfmpegJob`: `queries i` is the result of the
status query in iteration `i`; `fuel` is the number of iterations for which
`Date.now() - startTime < maxWaitMs` still holds (the loop sleeps a fixed
2000 ms between polls). -/
def pollLoop (queries : Nat → StatusQueryResult) : Nat → Nat → String
  | 0, _ => "timeout"
  | fuel + 1, i =>
      let status := getFfmpegJobStatus (queries i)
      if status ∈ terminalStatuses then status
      else pollLoop queries fuel (i + 1)

/-- `waitForFfmpegJob`: poll every 2000 ms until a terminal status or until
`maxWaitMs` elapses, in which case the synthetic `"timeout"` is returned. -/
def waitForFfmpegJob (queries : Nat → StatusQueryResult) (maxWaitMs : Nat) :
    String :=
  pollLoop queries ((maxWaitMs + 1999) / 2000) 0

/-! ## Derived-artifact pipeline (`triggerProxyGeneration`) -/

/-- Terminal results of the two `waitForFfmpegJob` calls the pipeline makes
(the job-control platform, abstracted). -/
structure JobOracle where
  proxyResult : String
  thumbResult : String
  deriving DecidableEq, Repr

/-- `triggerProxyGeneration`: non-video assets are marked `none`; video
assets are marked `processing`, the proxy job runs to a terminal state, a
non-`Complete` result marks the asset `failed`, and on `Complete` the
thumbnail job runs best-effort and the asset is marked `ready` with the proxy
key and, if the thumbnail completed, the thumbnail key. -/
def triggerProxyGeneration (o : JobOracle) (s : Store) (t1 t2 : Nat)
    (asset : Asset) : Store :=
  if ¬ strStarts asset.mimeType "video/" then
    (updateAsset s t1 asset.id { proxyStatus := some ProxyStatus.none }).2
  else
    let s1 := (updateAsset s t1 asset.id { proxyStatus := some ProxyStatus.processing }).2
    if o.proxyResult ≠ "Complete" then
      (updateAsset s1 t2 asset.id { proxyStatus := some ProxyStatus.failed }).2
    else
      let updates : AssetUpdate :=
        { proxyKey := some (some ("proxies/" ++ asset.id ++ "/proxy.mp4"))
          proxyStatus := some ProxyStatus.ready
          thumbnailKey :=
            (if o.thumbResult = "Complete"
             then some (some ("thumbnails/" ++ asset.id ++ "/thumb.jpg"))
             else Option.none) }
      (updateAsset s1 t2 asset.id updates).2

/-! ## Operation sequences -/

/-- One foreground metadata mutation (the id of a create stands for the
freshly generated UUID). -/
inductive MetaOp where
  | create (id : String) (now : Nat) (input : AssetInput)
  | update (id : String) (now : Nat) (u : AssetUpdate)
  | delete (id : String)
  deriving DecidableEq, Repr

def applyMetaOp (s : Store) : MetaOp → Store
  | MetaOp.create id now input => (createAsset s now id input).2
  | MetaOp.update id now u => (updateAsset s now id u).2
  | MetaOp.delete id => (deleteAsset s id).2

def applyMetaOps (s : Store) (ops : List MetaOp) : Store :=
  ops.foldl applyMetaOp s

/-- Side conditions of a run: created ids are fresh (UUIDs), and supplied tag
lists are duplicate-free after case-folding. -/
def metaOpOk (s : Store) : MetaOp → Bool
  | MetaOp.create id _ input =>
      (kvGet s.assets id).isNone && (input.tags.map lower).Nodup
  | MetaOp.update _ _ u =>
      match u.tags with
      | Option.none => true
      | some ts => (ts.map lower).Nodup
  | MetaOp.delete _ => true

def metaOpsOk : Store → List MetaOp → Bool
  | _, [] => true
  | s, op :: rest => metaOpOk s op && metaOpsOk (applyMetaOp s op) rest

/-- Number of live assets whose case-folded tag set contains `t`. -/
def liveTagCount (s : Store) (t : String) : Nat :=
  s.assets.countP (fun p => decide (t ∈ p.2.tags.map lower))

/-- One collection-membership mutation. -/
inductive CollOp where
  | add (now : Nat) (collectionId assetId : String)
  | remove (now : Nat) (collectionId assetId : String)
  deriving DecidableEq, Repr

def applyCollOp (s : Store) : CollOp → Store
  | CollOp.add now cid aid => (addAssetToCollection s now cid aid).getD s
  | CollOp.remove now cid aid => (removeAssetFromCollection s now cid aid).getD s

def applyCollOps (s : Store) (ops : List CollOp) : Store :=
  ops.foldl applyCollOp s

/-! ## Invariants and fixtures -/

/-- The tag-counter invariant carried through operation sequences: asset and
counter keys are duplicate-free, every stored tag list is duplicate-free
after case-folding, and every counter score equals the live asset count of
its tag. -/
def TagInv (s : Store) : Prop :=
  (s.assets.map Prod.fst).Nodup ∧
  (s.tagsAll.map Prod.fst).Nodup ∧
  (∀ p ∈ s.assets, (p.2.tags.map lower).Nodup) ∧
  (∀ t, tagScore s.tagsAll t = (liveTagCount s t : Int))

/-- Concrete fixtures used to exercise the theorems. -/
def inputA : AssetInput :=
  { filename := "big_buck_bunny.mp4", mimeType := "video/mp4", fileSize := 64,
    duration := some 596, resolution := some "1080p", codec := some "h264",
    title := "Big Buck Bunny", description := "open movie", tags := ["Wild"],
    customMeta := [], minioKey := "originals/a1", proxyKey := Option.none,
    thumbnailKey := Option.none, posterKey := Option.none,
    proxyStatus := ProxyStatus.pending, collections := [] }

def assetA : Asset := (createAsset emptyStore 3 "a1" inputA).1

def storeA : Store := (createAsset emptyStore 3 "a1" inputA).2

def collC : Collection :=
  { id := "c1", name := "Favorites", description := "", coverAssetId := Option.none,
    assetCount := 0, createdAt := 0, updatedAt := 0 }

def storeAC : Store :=
  { storeA with collections := [("c1", collC)], collectionsIndex := [("c1", 0)] }

def storeAC2 : Store := (addAssetToCollection storeAC 4 "c1" "a1").getD storeAC

def inputDoc : AssetInput :=
  { inputA with mimeType := "image/png", filename := "cover.png" }

def assetD : Asset := (createAsset emptyStore 3 "d1" inputDoc).1

def storeD : Store := (createAsset emptyStore 3 "d1" inputDoc).2

/-! ## Lemmas about the key-value primitives -/

theorem kvGet_kvSet {α : Type} (m : List (String × α)) (k k' : String) (v : α) :
    kvGet (kvSet m k v) k' = if k' = k then some v else kvGet m k' := by
  induction m with
  | nil =>
    by_cases h : k' = k
    · simp [kvSet, kvGet, h]
    · simp [kvSet, kvGet, h, Ne.symm h]
  | cons hd tl ih =>
    obtain ⟨k₀, v₀⟩ := hd
    by_cases hk : k₀ = k
    · subst hk
      by_cases h' : k' = k₀
      · simp [kvSet, kvGet, h']
      · simp [kvSet, kvGet, h', Ne.symm h']
    · by_cases h' : k₀ = k'
      · subst h'
        simp [kvSet, kvGet, hk, Ne.symm hk]
      · simp [kvSet, kvGet, hk, h', ih]

theorem kvGet_mem {α : Type} {m : List (String × α)} {k : String} {v : α}
    (h : kvGet m k = some v) : (k, v) ∈ m := by
  induction m with
  | nil => simp [kvGet] at h
  | cons hd tl ih =>
    obtain ⟨k₀, v₀⟩ := hd
    by_cases hk : k₀ = k
    · subst hk
      simp [kvGet] at h
      simp [h]
    · simp [kvGet, hk] at h
      exact List.mem_cons_of_mem _ (ih h)

theorem kvGet_eq_none_iff {α : Type} (m : List (String × α)) (k : String) :
    kvGet m k = Option.none ↔ k ∉ m.map Prod.fst := by
  induction m with
  | nil => simp [kvGet]
  | cons hd tl ih =>
    obtain ⟨k₀, v₀⟩ := hd
    by_cases hk : k₀ = k
    · subst hk; simp [kvGet]
    · simp [kvGet, hk, ih, Ne.symm hk]

theorem mem_kvSet {α : Type} {m : List (String × α)} {k : String} {v : α}
    {p : String × α} (h : p ∈ kvSet m k v) : p = (k, v) ∨ p ∈ m := by
  induction m with
  | nil => simpa [kvSet] using h
  | cons hd tl ih =>
    obtain ⟨k₀, v₀⟩ := hd
    by_cases hk : k₀ = k
    · subst hk
      simp only [kvSet, if_pos rfl] at h
      rcases List.mem_cons.mp h with h | h
      · exact Or.inl h
      · exact Or.inr (List.mem_cons_of_mem _ h)
    · simp only [kvSet, if_neg hk] at h
      rcases List.mem_cons.mp h with h | h
      · exact Or.inr (List.mem_cons.mpr (Or.inl h))
      · rcases ih h with h | h
        · exact Or.inl h
        · exact Or.inr (List.mem_cons_of_mem _ h)

theorem map_fst_kvSet {α : Type} (m : List (String × α)) (k : String) (v : α) :
    (kvSet m k v).map Prod.fst =
      if k ∈ m.map Prod.fst then m.map Prod.fst else m.map Prod.fst ++ [k] := by
  induction m with
  | nil => simp [kvSet]
  | cons hd tl ih =>
    obtain ⟨k₀, v₀⟩ := hd
    by_cases hk : k₀ = k
    · subst hk; simp [kvSet]
    · simp only [kvSet, if_neg hk, List.map_cons, ih]
      by_cases hmem : k ∈ tl.map Prod.fst
      · simp [hmem, Ne.symm hk]
      · simp [hmem, Ne.symm hk]

theorem nodup_fst_kvSet {α : Type} {m : List (String × α)} (k : String) (v : α)
    (h : (m.map Prod.fst).Nodup) : ((kvSet m k v).map Prod.fst).Nodup := by
  rw [map_fst_kvSet]
  by_cases hmem : k ∈ m.map Prod.fst
  · simpa [hmem] using h
  · simp only [if_neg hmem]
    refine List.Nodup.append h (List.nodup_singleton k) ?_
    intro a ha hb
    rw [List.mem_singleton] at hb
    subst hb
    exact hmem ha

theorem kvDel_sublist {α : Type} (m : List (String × α)) (k : String) :
    List.Sublist (kvDel m k) m := by
  induction m with
  | nil => simp [kvDel]
  | cons hd tl ih =>
    obtain ⟨k₀, v₀⟩ := hd
    by_cases hk : k₀ = k
    · simp only [kvDel, if_pos hk]
      exact List.sublist_cons_self _ _
    · simp only [kvDel, if_neg hk]
      exact List.Sublist.cons₂ _ ih

theorem kvGet_kvDel_ne {α : Type} (m : List (String × α)) {k k' : String}
    (h : k' ≠ k) : kvGet (kvDel m k) k' = kvGet m k' := by
  induction m with
  | nil => simp [kvDel]
  | cons hd tl ih =>
    obtain ⟨k₀, v₀⟩ := hd
    by_cases hk : k₀ = k
    · subst hk
      simp [kvDel, kvGet, Ne.symm h]
    · simp [kvDel, hk, kvGet, ih]

theorem kvGet_kvDel_self {α : Type} {m : List (String × α)} {k : String}
    (h : (m.map Prod.fst).Nodup) : kvGet (kvDel m k) k = Option.none := by
  induction m with
  | nil => simp [kvDel, kvGet]
  | cons hd tl ih =>
    obtain ⟨k₀, v₀⟩ := hd
    simp only [List.map_cons, List.nodup_cons] at h
    by_cases hk : k₀ = k
    · subst hk
      simp only [kvDel, if_pos rfl]
      exact (kvGet_eq_none_iff tl k₀).mpr h.1
    · simp [kvDel, hk, kvGet, ih h.2]

/-! ## Lemmas about tag counters -/

theorem tagScore_zincrby (m : List (String × Int)) (d : Int) (t t' : String) :
    tagScore (zincrby m d t) t' = tagScore m t' + (if t' = t then d else 0) := by
  unfold tagScore zincrby
  rw [kvGet_kvSet]
  by_cases h : t' = t
  · subst h; simp
  · simp [h]

theorem tagScore_foldl_zincrby (l : List String) (m : List (String × Int))
    (d : Int) (t : String) :
    tagScore (l.foldl (fun m x => zincrby m d x) m) t
      = tagScore m t + d * (l.count t : Int) := by
  induction l generalizing m with
  | nil => simp
  | cons x rest ih =>
    rw [List.foldl_cons, ih, tagScore_zincrby]
    by_cases h : t = x
    · subst h
      rw [List.count_cons_self]
      push_cast
      simp
      ring
    · rw [List.count_cons_of_ne h]
      simp [h]

theorem nodup_fst_zincrby {m : List (String × Int)} (d : Int) (t : String)
    (h : (m.map Prod.fst).Nodup) : ((zincrby m d t).map Prod.fst).Nodup :=
  nodup_fst_kvSet t _ h

theorem nodup_fst_foldl_zincrby (l : List String) {m : List (String × Int)}
    (d : Int) (h : (m.map Prod.fst).Nodup) :
    ((l.foldl (fun m x => zincrby m d x) m).map Prod.fst).Nodup := by
  induction l generalizing m with
  | nil => simpa
  | cons x rest ih => exact ih (nodup_fst_zincrby d x h)

theorem tagScore_prune {m : List (String × Int)} (t : String)
    (h : (m.map Prod.fst).Nodup) :
    tagScore (pruneNonPositive m) t
      = if 0 < tagScore m t then tagScore m t else 0 := by
  induction m with
  | nil => simp [pruneNonPositive, tagScore, kvGet]
  | cons hd tl ih =>
    obtain ⟨k, v⟩ := hd
    simp only [List.map_cons, List.nodup_cons] at h
    by_cases hk : k = t
    · subst hk
      by_cases hv : 0 < v
      · simp [pruneNonPositive, hv, tagScore, kvGet]
      · have htl : kvGet (tl.filter (fun p => decide (0 < p.2))) k = Option.none := by
          rw [kvGet_eq_none_iff]
          intro hmem
          apply h.1
          obtain ⟨q, hq, hqe⟩ := List.exists_of_mem_map hmem
          exact hqe ▸ List.mem_map_of_mem Prod.fst (List.mem_of_mem_filter hq)
        simp [pruneNonPositive, hv, tagScore, kvGet, htl]
    · have hrec : tagScore (pruneNonPositive tl) t
          = if 0 < tagScore tl t then tagScore tl t else 0 := ih h.2
      by_cases hv : 0 < v
      · simpa [pruneNonPositive, hv, tagScore, kvGet, hk] using hrec
      · simpa [pruneNonPositive, hv, tagScore, kvGet, hk] using hrec

theorem mem_pruneNonPositive {m : List (String × Int)} {p : String × Int}
    (h : p ∈ pruneNonPositive m) : 0 < p.2 := by
  have := List.of_mem_filter h
  simpa using this

theorem nodup_fst_pruneNonPositive {m : List (String × Int)}
    (h : (m.map Prod.fst).Nodup) :
    ((pruneNonPositive m).map Prod.fst).Nodup :=
  h.sublist (List.Sublist.map Prod.fst (List.filter_sublist m))

/-- Counting in a deduplicated list: one when present, zero otherwise. -/
theorem count_eq_ite_of_nodup {l : List String} {t : String} (h : l.Nodup) :
    l.count t = if t ∈ l then 1 else 0 := by
  by_cases hm : t ∈ l
  · simp [hm, List.count_eq_one_of_mem h hm]
  · simp [hm, List.count_eq_zero.mpr hm]

theorem count_filter_eq {l : List String} {p : String → Bool} {t : String} :
    (l.filter p).count t = if p t then l.count t else 0 := by
  induction l with
  | nil => simp
  | cons x rest ih =>
    by_cases hp : p x
    · by_cases hx : x = t
      · subst hx
        simp [List.filter_cons, hp, List.count_cons_self, ih]
      · simp [List.filter_cons, hp, List.count_cons_of_ne (Ne.symm hx), ih]
    · by_cases hx : x = t
      · subst hx
        simp [List.filter_cons, hp, List.count_cons_self, ih]
      · simp [List.filter_cons, hp, List.count_cons_of_ne (Ne.symm hx), ih]

/-! ## Lemmas about asset counting -/

theorem countP_kvSet {α : Type} {m : List (String × α)} {k : String}
    {old : α} (v : α) (p : String × α → Bool)
    (hn : (m.map Prod.fst).Nodup) (hg : kvGet m k = some old) :
    (kvSet m k v).countP p + (if p (k, old) then 1 else 0)
      = m.countP p + (if p (k, v) then 1 else 0) := by
  induction m with
  | nil => simp [kvGet] at hg
  | cons hd tl ih =>
    obtain ⟨k₀, v₀⟩ := hd
    simp only [List.map_cons, List.nodup_cons] at hn
    by_cases hk : k₀ = k
    · subst hk
      have hg' : v₀ = old := by simpa [kvGet] using hg
      subst hg'
      simp [kvSet, List.countP_cons]
      omega
    · simp only [kvGet, if_neg hk] at hg
      simp only [kvSet, if_neg hk, List.countP_cons]
      have := ih hn.2 hg
      omega

theorem countP_kvDel {α : Type} {m : List (String × α)} {k : String}
    {old : α} (p : String × α → Bool)
    (hn : (m.map Prod.fst).Nodup) (hg : kvGet m k = some old) :
    (kvDel m k).countP p + (if p (k, old) then 1 else 0) = m.countP p := by
  induction m with
  | nil => simp [kvGet] at hg
  | cons hd tl ih =>
    obtain ⟨k₀, v₀⟩ := hd
    simp only [List.map_cons, List.nodup_cons] at hn
    by_cases hk : k₀ = k
    · subst hk
      have hg' : v₀ = old := by simpa [kvGet] using hg
      subst hg'
      simp [kvDel, List.countP_cons]
    · simp only [kvGet, if_neg hk] at hg
      simp only [kvDel, if_neg hk, List.countP_cons]
      have := ih hn.2 hg
      omega

theorem kvSet_of_absent {α : Type} {m : List (String × α)} {k : String}
    (v : α) (h : kvGet m k = Option.none) : kvSet m k v = m ++ [(k, v)] := by
  induction m with
  | nil => simp [kvSet]
  | cons hd tl ih =>
    obtain ⟨k₀, v₀⟩ := hd
    by_cases hk : k₀ = k
    · subst hk; simp [kvGet] at h
    · simp only [kvGet, if_neg hk] at h
      simp [kvSet, hk, ih h]

/-! ## How each mutation touches the store components -/

theorem createAsset_assets (s : Store) (now : Nat) (id : String)
    (input : AssetInput) :
    (createAsset s now id input).2.assets
      = kvSet s.assets id (buildAsset input id now) := rfl

theorem createAsset_tagsAll (s : Store) (now : Nat) (id : String)
    (input : AssetInput) :
    (createAsset s now id input).2.tagsAll
      = input.tags.foldl (fun m tag => zincrby m 1 (lower tag)) s.tagsAll := rfl

theorem updateAsset_assets {s : Store} (now : Nat) {id : String}
    (u : AssetUpdate) {existing : Asset} (hg : getAsset s id = some existing) :
    (updateAsset s now id u).2.assets
      = kvSet s.assets id (applyUpdate existing u now) := by
  simp only [updateAsset, hg, indexAssetForSearch, removeAssetFromSearchIndex]

theorem updateAsset_fst {s : Store} (now : Nat) {id : String}
    (u : AssetUpdate) {existing : Asset} (hg : getAsset s id = some existing) :
    (updateAsset s now id u).1 = some (applyUpdate existing u now) := by
  simp only [updateAsset, hg]

theorem updateAsset_tagsAll {s : Store} (now : Nat) {id : String}
    (u : AssetUpdate) {existing : Asset} (hg : getAsset s id = some existing) :
    (updateAsset s now id u).2.tagsAll
      = ((existing.tags.map lower).filter
            (fun t => decide (t ∉ (u.tags.getD existing.tags).map lower))).foldl
          (fun m t => zincrby m (-1) t)
          ((((u.tags.getD existing.tags).map lower).filter
              (fun t => decide (t ∉ existing.tags.map lower))).foldl
            (fun m t => zincrby m 1 t) s.tagsAll) := by
  simp only [updateAsset, hg, indexAssetForSearch, removeAssetFromSearchIndex]

theorem deleteAsset_assets {s : Store} {id : String} {asset : Asset}
    (hg : getAsset s id = some asset) :
    (deleteAsset s id).2.assets = kvDel s.assets id := by
  simp only [deleteAsset, hg, removeAssetFromSearchIndex]

theorem deleteAsset_tagsAll {s : Store} {id : String} {asset : Asset}
    (hg : getAsset s id = some asset) :
    (deleteAsset s id).2.tagsAll
      = pruneNonPositive
          (asset.tags.foldl (fun m tag => zincrby m (-1) (lower tag))
            s.tagsAll) := by
  simp only [deleteAsset, hg, removeAssetFromSearchIndex]

/-! ## Preservation of the tag-counter invariant -/

theorem tagInv_empty : TagInv emptyStore := by
  refine ⟨by simp [emptyStore], by simp [emptyStore], by simp [emptyStore], ?_⟩
  intro t
  simp [emptyStore, tagScore, kvGet, liveTagCount]

theorem tagInv_create {s : Store} (now : Nat) {id : String}
    {input : AssetInput} (hinv : TagInv s)
    (hfresh : kvGet s.assets id = Option.none)
    (htags : (input.tags.map lower).Nodup) :
    TagInv (createAsset s now id input).2 := by
  obtain ⟨hA, hT, hTags, hScore⟩ := hinv
  have hassets : (createAsset s now id input).2.assets
      = s.assets ++ [(id, buildAsset input id now)] := by
    rw [createAsset_assets, kvSet_of_absent _ hfresh]
  have hidmem : id ∉ s.assets.map Prod.fst := (kvGet_eq_none_iff _ _).mp hfresh
  refine ⟨?_, ?_, ?_, ?_⟩
  · rw [hassets]
    simp only [List.map_append, List.map_cons, List.map_nil]
    refine List.Nodup.append hA (List.nodup_singleton id) ?_
    intro x hx hx'
    rw [List.mem_singleton] at hx'
    subst hx'
    exact hidmem hx
  · rw [createAsset_tagsAll, ← List.foldl_map]
    exact nodup_fst_foldl_zincrby _ 1 hT
  · rw [hassets]
    intro p hp
    rcases List.mem_append.mp hp with hp | hp
    · exact hTags p hp
    · rw [List.mem_singleton] at hp
      subst hp
      exact htags
  · intro t
    rw [createAsset_tagsAll, ← List.foldl_map, tagScore_foldl_zincrby]
    have hcnt : ((input.tags.map lower).count t : Int)
        = if t ∈ input.tags.map lower then 1 else 0 := by
      rw [count_eq_ite_of_nodup htags]
      split <;> simp
    have hlive : liveTagCount (createAsset s now id input).2 t
        = liveTagCount s t + (if t ∈ input.tags.map lower then 1 else 0) := by
      unfold liveTagCount
      rw [hassets, List.countP_append]
      simp only [List.countP_cons, List.countP_nil, buildAsset]
      split <;> simp_all
    rw [hlive, hScore t, hcnt]
    split <;> push_cast <;> ring

theorem tagInv_update {s : Store} (now : Nat) (id : String) {u : AssetUpdate}
    (hinv : TagInv s)
    (hut : ∀ ts, u.tags = some ts → (ts.map lower).Nodup) :
    TagInv (updateAsset s now id u).2 := by
  obtain ⟨hA, hT, hTags, hScore⟩ := hinv
  cases hg : getAsset s id with
  | none =>
    simp only [updateAsset, hg]
    exact ⟨hA, hT, hTags, hScore⟩
  | some existing =>
    have hmem : (id, existing) ∈ s.assets := kvGet_mem hg
    have hold : (existing.tags.map lower).Nodup := hTags _ hmem
    have hnew : ((u.tags.getD existing.tags).map lower).Nodup := by
      cases hu : u.tags with
      | none => simpa using hold
      | some ts => simpa using hut ts hu
    have hassets := updateAsset_assets now u hg
    have htags' := updateAsset_tagsAll now u hg
    have hmtags : (applyUpdate existing u now).tags = u.tags.getD existing.tags := by
      simp [applyUpdate]
    refine ⟨?_, ?_, ?_, ?_⟩
    · rw [hassets]
      exact nodup_fst_kvSet _ _ hA
    · rw [htags']
      exact nodup_fst_foldl_zincrby _ _ (nodup_fst_foldl_zincrby _ _ hT)
    · rw [hassets]
      intro p hp
      rcases mem_kvSet hp with hp | hp
      · subst hp
        simpa [hmtags] using hnew
      · exact hTags p hp
    · intro t
      have hcadd : ((((u.tags.getD existing.tags).map lower).filter
            (fun t' => decide (t' ∉ existing.tags.map lower))).count t : Int)
          = if t ∈ (u.tags.getD existing.tags).map lower ∧
              t ∉ existing.tags.map lower then 1 else 0 := by
        rw [count_filter_eq, count_eq_ite_of_nodup hnew]
        by_cases h1 : t ∈ (u.tags.getD existing.tags).map lower <;>
          by_cases h2 : t ∈ existing.tags.map lower <;> simp [h1, h2]
      have hcrem : (((existing.tags.map lower).filter
            (fun t' => decide (t' ∉ (u.tags.getD existing.tags).map lower))).count t : Int)
          = if t ∈ existing.tags.map lower ∧
              t ∉ (u.tags.getD existing.tags).map lower then 1 else 0 := by
        rw [count_filter_eq, count_eq_ite_of_nodup hold]
        by_cases h1 : t ∈ (u.tags.getD existing.tags).map lower <;>
          by_cases h2 : t ∈ existing.tags.map lower <;> simp [h1, h2]
      have hcnt := countP_kvSet (applyUpdate existing u now)
        (fun q => decide (t ∈ q.2.tags.map lower)) hA hg
      have hcnt' : (kvSet s.assets id (applyUpdate existing u now)).countP
            (fun q => decide (t ∈ q.2.tags.map lower))
            + (if t ∈ existing.tags.map lower then 1 else 0)
          = s.assets.countP (fun q => decide (t ∈ q.2.tags.map lower))
            + (if t ∈ (u.tags.getD existing.tags).map lower then 1 else 0) := by
        simpa only [hmtags, decide_eq_true_eq] using hcnt
      have hSt := hScore t
      unfold liveTagCount at hSt ⊢
      rw [htags', tagScore_foldl_zincrby, tagScore_foldl_zincrby, hassets,
        hcadd, hcrem, hSt]
      split_ifs at hcnt' ⊢ <;> first | omega | tauto

theorem tagInv_delete {s : Store} (id : String) (hinv : TagInv s) :
    TagInv (deleteAsset s id).2 := by
  obtain ⟨hA, hT, hTags, hScore⟩ := hinv
  cases hg : getAsset s id with
  | none =>
    simp only [deleteAsset, hg]
    exact ⟨hA, hT, hTags, hScore⟩
  | some asset =>
    have hmem : (id, asset) ∈ s.assets := kvGet_mem hg
    have hold : (asset.tags.map lower).Nodup := hTags _ hmem
    have hassets := deleteAsset_assets hg
    have htags' := deleteAsset_tagsAll hg
    have hinnern : ((asset.tags.foldl (fun m tag => zincrby m (-1) (lower tag))
        s.tagsAll).map Prod.fst).Nodup := by
      rw [← List.foldl_map]
      exact nodup_fst_foldl_zincrby _ _ hT
    refine ⟨?_, ?_, ?_, ?_⟩
    · rw [hassets]
      exact hA.sublist (List.Sublist.map _ (kvDel_sublist _ _))
    · rw [htags']
      exact nodup_fst_pruneNonPositive hinnern
    · rw [hassets]
      intro p hp
      exact hTags p ((kvDel_sublist _ _).subset hp)
    · intro t
      have hcnt := countP_kvDel
        (fun q => decide (t ∈ q.2.tags.map lower)) hA hg
      have hSt := hScore t
      have hcnt2 : ((asset.tags.map lower).count t : Int)
          = if t ∈ asset.tags.map lower then 1 else 0 := by
        rw [count_eq_ite_of_nodup hold]
        split <;> simp
      have hcnt' : (kvDel s.assets id).countP
            (fun q => decide (t ∈ q.2.tags.map lower))
            + (if t ∈ asset.tags.map lower then 1 else 0)
          = s.assets.countP (fun q => decide (t ∈ q.2.tags.map lower)) := by
        simpa only [decide_eq_true_eq] using hcnt
      unfold liveTagCount at hSt ⊢
      rw [htags', tagScore_prune t hinnern, ← List.foldl_map,
        tagScore_foldl_zincrby, hassets, hSt, hcnt2]
      split_ifs at hcnt' ⊢ <;> omega

/-- The invariant holds after any admissible operation sequence. -/
theorem tagInv_applyMetaOps (ops : List MetaOp) :
    ∀ s : Store, TagInv s → metaOpsOk s ops = true →
      TagInv (applyMetaOps s ops) := by
  induction ops with
  | nil => intro s hinv _; simpa [applyMetaOps] using hinv
  | cons op rest ih =>
    intro s hinv hok
    simp only [metaOpsOk, Bool.and_eq_true] at hok
    have hstep : TagInv (applyMetaOp s op) := by
      cases op with
      | create id now input =>
        simp only [metaOpOk, Bool.and_eq_true, Option.isNone_iff_eq_none,
          decide_eq_true_eq] at hok
        exact tagInv_create now hinv hok.1.1 hok.1.2
      | update id now u =>
        refine tagInv_update now id hinv ?_
        intro ts hts
        have := hok.1
        simp only [metaOpOk, hts, decide_eq_true_eq] at this
        exact this
      | delete id => exact tagInv_delete id hinv
    have : applyMetaOps s (op :: rest)
        = applyMetaOps (applyMetaOp s op) rest := by
      simp [applyMetaOps]
    rw [this]
    exact ih _ hstep hok.2

theorem kvGet_of_mem_nodup {α : Type} {m : List (String × α)} {k : String}
    {v : α} (hn : (m.map Prod.fst).Nodup) (h : (k, v) ∈ m) :
    kvGet m k = some v := by
  induction m with
  | nil => simp at h
  | cons hd tl ih =>
    obtain ⟨k₀, v₀⟩ := hd
    simp only [List.map_cons, List.nodup_cons] at hn
    rcases List.mem_cons.mp h with h | h
    · rw [Prod.mk.injEq] at h
      obtain ⟨hk, hv⟩ := h
      subst hk
      subst hv
      simp [kvGet]
    · have hk : k₀ ≠ k := by
        intro he
        subst he
        exact hn.1 (List.mem_map_of_mem Prod.fst h)
      simp [kvGet, hk, ih hn.2 h]

/-- Claim C1 (amended): over any admissible operation sequence from the
empty store (fresh create ids, tag lists duplicate-free after case-folding),
the counter for the case-folded form of any tag `T` (0 when absent) equals
the number of live assets whose case-folded tag set contains it, no counter
entry is ever negative, and a successful `deleteAsset` leaves no entry ≤ 0.
The literal claim fails: duplicate tags that collide after case-folding are
counted twice, and `updateAsset` leaves zero-valued entries unpruned. -/
theorem tag_counter_invariant (ops : List MetaOp)
    (hok : metaOpsOk emptyStore ops = true) (T : String) :
    tagScore (applyMetaOps emptyStore ops).tagsAll (lower T)
        = (liveTagCount (applyMetaOps emptyStore ops) (lower T) : Int)
    ∧ (∀ p ∈ (applyMetaOps emptyStore ops).tagsAll, 0 ≤ p.2)
    ∧ (∀ s' id, (deleteAsset s' id).1 = true →
        ∀ p ∈ (deleteAsset s' id).2.tagsAll, 0 < p.2) := by
  obtain ⟨hA, hT, hTags, hScore⟩ := tagInv_applyMetaOps ops emptyStore
    tagInv_empty hok
  refine ⟨hScore (lower T), ?_, ?_⟩
  · intro p hp
    obtain ⟨t, v⟩ := p
    have hv : tagScore (applyMetaOps emptyStore ops).tagsAll t = v := by
      unfold tagScore
      rw [kvGet_of_mem_nodup hT hp]
      rfl
    have := hScore t
    rw [hv] at this
    simp only [this]
    positivity
  · intro s' id hdel p hp
    cases hg : getAsset s' id with
    | none => simp [deleteAsset, hg] at hdel
    | some asset =>
      have : (deleteAsset s' id).2.tagsAll
          = pruneNonPositive
              (asset.tags.foldl (fun m tag => zincrby m (-1) (lower tag))
                s'.tagsAll) := deleteAsset_tagsAll hg
      rw [this] at hp
      exact mem_pruneNonPositive hp

/-- Claim C1 counterexample: after the one-operation sequence that creates an
asset tagged `["Foo", "foo"]`, the counter entry for the case-folded tag
`"foo"` is 2 while only one live asset carries it; and after a create
followed by an update that removes the tag `"bar"`, a counter entry with
value 0 is still present. -/
theorem tag_counter_claim_counterexample :
    (tagScore (createAsset emptyStore 0 "a1"
        { inputA with tags := ["Foo", "foo"] }).2.tagsAll (lower "foo") = 2
      ∧ liveTagCount (createAsset emptyStore 0 "a1"
        { inputA with tags := ["Foo", "foo"] }).2 (lower "foo") = 1)
    ∧ ("bar", 0) ∈ (applyMetaOps emptyStore
        [MetaOp.create "a2" 0 { inputA with tags := ["bar"] },
         MetaOp.update "a2" 1 { tags := some [] }]).tagsAll := by decide

theorem tag_counter_invariant_witness :
    metaOpsOk emptyStore
        [MetaOp.create "a1" 0 inputA,
         MetaOp.update "a1" 1 { tags := some ["Wild", "Nature"] },
         MetaOp.delete "a1"] = true
    ∧ tagScore (applyMetaOps emptyStore
          [MetaOp.create "a1" 0 inputA,
           MetaOp.update "a1" 1 { tags := some ["Wild", "Nature"] },
           MetaOp.delete "a1"]).tagsAll (lower "Wild")
        = (liveTagCount (applyMetaOps emptyStore
          [MetaOp.create "a1" 0 inputA,
           MetaOp.update "a1" 1 { tags := some ["Wild", "Nature"] },
           MetaOp.delete "a1"]) (lower "Wild") : Int) :=
  ⟨by decide,
    (tag_counter_invariant
      [MetaOp.create "a1" 0 inputA,
       MetaOp.update "a1" 1 { tags := some ["Wild", "Nature"] },
       MetaOp.delete "a1"] (by decide) "Wild").1⟩

/-- Claim C3: `createAsset` followed by `getAsset` with the returned id
yields a record equal to the input in every caller-supplied field, and the
record additionally carries the generated identifier and the
creation/update timestamps. -/
theorem createAsset_getAsset_roundtrip (s : Store) (now : Nat) (id : String)
    (input : AssetInput) :
    getAsset (createAsset s now id input).2 id
        = some (createAsset s now id input).1
    ∧ (createAsset s now id input).1.filename = input.filename
    ∧ (createAsset s now id input).1.mimeType = input.mimeType
    ∧ (createAsset s now id input).1.fileSize = input.fileSize
    ∧ (createAsset s now id input).1.duration = input.duration
    ∧ (createAsset s now id input).1.resolution = input.resolution
    ∧ (createAsset s now id input).1.codec = input.codec
    ∧ (createAsset s now id input).1.title = input.title
    ∧ (createAsset s now id input).1.description = input.description
    ∧ (createAsset s now id input).1.tags = input.tags
    ∧ (createAsset s now id input).1.customMeta = input.customMeta
    ∧ (createAsset s now id input).1.minioKey = input.minioKey
    ∧ (createAsset s now id input).1.proxyKey = input.proxyKey
    ∧ (createAsset s now id input).1.thumbnailKey = input.thumbnailKey
    ∧ (createAsset s now id input).1.posterKey = input.posterKey
    ∧ (createAsset s now id input).1.proxyStatus = input.proxyStatus
    ∧ (createAsset s now id input).1.collections = input.collections
    ∧ (createAsset s now id input).1.id = id
    ∧ (createAsset s now id input).1.createdAt = now
    ∧ (createAsset s now id input).1.updatedAt = now := by
  refine ⟨?_, ?_⟩
  · show getAsset (createAsset s now id input).2 id = _
    unfold getAsset
    rw [createAsset_assets, kvGet_kvSet]
    simp [createAsset, buildAsset]
  · simp [createAsset, buildAsset]

/-- Claim C5: `updateAsset` on an existing record returns (and stores) a
merged record that keeps the identifier and creation timestamp, refreshes
the update timestamp, takes every supplied field from the update, and keeps
every omitted field from the pre-update record. -/
theorem updateAsset_merge_semantics (s : Store) (now : Nat) (id : String)
    (u : AssetUpdate) (existing : Asset)
    (hg : getAsset s id = some existing) :
    ∃ m : Asset, (updateAsset s now id u).1 = some m
      ∧ getAsset (updateAsset s now id u).2 id = some m
      ∧ m.id = existing.id
      ∧ m.createdAt = existing.createdAt
      ∧ m.updatedAt = now
      ∧ m.filename = u.filename.getD existing.filename
      ∧ m.mimeType = u.mimeType.getD existing.mimeType
      ∧ m.fileSize = u.fileSize.getD existing.fileSize
      ∧ m.duration = u.duration.getD existing.duration
      ∧ m.resolution = u.resolution.getD existing.resolution
      ∧ m.codec = u.codec.getD existing.codec
      ∧ m.title = u.title.getD existing.title
      ∧ m.description = u.description.getD existing.description
      ∧ m.tags = u.tags.getD existing.tags
      ∧ m.customMeta = u.customMeta.getD existing.customMeta
      ∧ m.minioKey = u.minioKey.getD existing.minioKey
      ∧ m.proxyKey = u.proxyKey.getD existing.proxyKey
      ∧ m.thumbnailKey = u.thumbnailKey.getD existing.thumbnailKey
      ∧ m.posterKey = u.posterKey.getD existing.posterKey
      ∧ m.proxyStatus = u.proxyStatus.getD existing.proxyStatus
      ∧ m.collections = u.collections.getD existing.collections := by
  refine ⟨applyUpdate existing u now, updateAsset_fst now u hg, ?_, ?_⟩
  · unfold getAsset
    rw [updateAsset_assets now u hg, kvGet_kvSet]
    simp
  · simp [applyUpdate]

theorem updateAsset_merge_semantics_witness :
    getAsset storeA "a1" = some assetA
    ∧ (∃ m : Asset,
        (updateAsset storeA 9 "a1" { title := some "Sintel" }).1 = some m
        ∧ getAsset (updateAsset storeA 9 "a1" { title := some "Sintel" }).2 "a1"
            = some m
        ∧ m.id = assetA.id
        ∧ m.createdAt = assetA.createdAt
        ∧ m.updatedAt = 9
        ∧ m.filename = (AssetUpdate.filename { title := some "Sintel" }).getD assetA.filename
        ∧ m.mimeType = (AssetUpdate.mimeType { title := some "Sintel" }).getD assetA.mimeType
        ∧ m.fileSize = (AssetUpdate.fileSize { title := some "Sintel" }).getD assetA.fileSize
        ∧ m.duration = (AssetUpdate.duration { title := some "Sintel" }).getD assetA.duration
        ∧ m.resolution = (AssetUpdate.resolution { title := some "Sintel" }).getD assetA.resolution
        ∧ m.codec = (AssetUpdate.codec { title := some "Sintel" }).getD assetA.codec
        ∧ m.title = (AssetUpdate.title { title := some "Sintel" }).getD assetA.title
        ∧ m.description = (AssetUpdate.description { title := some "Sintel" }).getD assetA.description
        ∧ m.tags = (AssetUpdate.tags { title := some "Sintel" }).getD assetA.tags
        ∧ m.customMeta = (AssetUpdate.customMeta { title := some "Sintel" }).getD assetA.customMeta
        ∧ m.minioKey = (AssetUpdate.minioKey { title := some "Sintel" }).getD assetA.minioKey
        ∧ m.proxyKey = (AssetUpdate.proxyKey { title := some "Sintel" }).getD assetA.proxyKey
        ∧ m.thumbnailKey = (AssetUpdate.thumbnailKey { title := some "Sintel" }).getD assetA.thumbnailKey
        ∧ m.posterKey = (AssetUpdate.posterKey { title := some "Sintel" }).getD assetA.posterKey
        ∧ m.proxyStatus = (AssetUpdate.proxyStatus { title := some "Sintel" }).getD assetA.proxyStatus
        ∧ m.collections = (AssetUpdate.collections { title := some "Sintel" }).getD assetA.collections) :=
  ⟨by decide,
    updateAsset_merge_semantics storeA 9 "a1" { title := some "Sintel" } assetA
      (by decide)⟩

/-! ## Collection membership -/

theorem mem_sadd_self (s : List String) (x : String) : x ∈ sadd s x := by
  unfold sadd
  by_cases h : x ∈ s
  · simp [h]
  · simp [h]

theorem mem_sadd_iff (s : List String) (x y : String) :
    y ∈ sadd s x ↔ y ∈ s ∨ y = x := by
  unfold sadd
  by_cases h : x ∈ s
  · simp only [if_pos h]
    constructor
    · exact fun hy => Or.inl hy
    · rintro (hy | hy)
      · exact hy
      · exact hy ▸ h
  · simp [if_neg h]

/-- Claim C4: adding an asset to a collection twice yields exactly the store
produced by adding it once (the second call sees the membership and
no-ops). -/
theorem addAssetToCollection_idempotent (s : Store) (t1 t2 : Nat)
    (cid aid : String) (c : Collection) (a : Asset)
    (hc : getCollection s cid = some c) (ha : getAsset s aid = some a) :
    ∃ s1 : Store, addAssetToCollection s t1 cid aid = some s1
      ∧ addAssetToCollection s1 t2 cid aid = some s1 := by
  by_cases hm : aid ∈ (kvGet s.byCollection cid).getD []
  · refine ⟨s, ?_, ?_⟩ <;>
      (unfold addAssetToCollection
       simp only [hc, ha]
       rw [if_pos hm])
  · refine ⟨{ s with
        byCollection := mapSadd s.byCollection cid aid,
        assets := kvSet s.assets aid
          { a with collections := a.collections ++ [cid], updatedAt := t1 },
        collections := kvSet s.collections cid
          { c with assetCount := c.assetCount + 1, updatedAt := t1 } },
      ?_, ?_⟩
    · unfold addAssetToCollection
      simp only [hc, ha]
      rw [if_neg hm]
    · unfold addAssetToCollection
      have hc2 : kvGet (kvSet s.collections cid
          { c with assetCount := c.assetCount + 1, updatedAt := t1 }) cid
          = some { c with assetCount := c.assetCount + 1, updatedAt := t1 } := by
        rw [kvGet_kvSet]
        simp
      have ha2 : kvGet (kvSet s.assets aid
          { a with collections := a.collections ++ [cid], updatedAt := t1 }) aid
          = some { a with collections := a.collections ++ [cid], updatedAt := t1 } := by
        rw [kvGet_kvSet]
        simp
      have hm2 : aid ∈ (kvGet (mapSadd s.byCollection cid aid) cid).getD [] := by
        unfold mapSadd
        rw [kvGet_kvSet]
        simpa using mem_sadd_self _ aid
      simp only [getCollection, getAsset, hc2, ha2]
      rw [if_pos hm2]

theorem addAssetToCollection_idempotent_witness :
    getCollection storeAC "c1" = some collC
    ∧ getAsset storeAC "a1" = some assetA
    ∧ (∃ s1 : Store, addAssetToCollection storeAC 4 "c1" "a1" = some s1
        ∧ addAssetToCollection s1 5 "c1" "a1" = some s1) :=
  ⟨by decide, by decide,
    addAssetToCollection_idempotent storeAC 4 5 "c1" "a1" collC assetA
      (by decide) (by decide)⟩

/-- One step of the collection-count invariant (Claim C10). -/
theorem collCount_step (s : Store) (op : CollOp)
    (h : ∀ p ∈ s.collections, 0 ≤ p.2.assetCount) :
    ∀ p ∈ (applyCollOp s op).collections, 0 ≤ p.2.assetCount := by
  cases op with
  | add now cid aid =>
    cases hc : getCollection s cid with
    | none =>
      simp only [applyCollOp, addAssetToCollection, hc]
      simpa using h
    | some c =>
      cases ha : getAsset s aid with
      | none =>
        simp only [applyCollOp, addAssetToCollection, hc, ha]
        simpa using h
      | some a =>
        simp only [applyCollOp, addAssetToCollection, hc, ha]
        by_cases hm : aid ∈ (kvGet s.byCollection cid).getD []
        · rw [if_pos hm]
          simpa using h
        · rw [if_neg hm]
          intro p hp
          rcases mem_kvSet (by simpa using hp) with hp' | hp'
          · subst hp'
            have h0 : (0:Int) ≤ c.assetCount := by simpa using h _ (kvGet_mem hc)
            show (0:Int) ≤ c.assetCount + 1
            omega
          · exact h p hp'
  | remove now cid aid =>
    cases hc : getCollection s cid with
    | none =>
      simp only [applyCollOp, removeAssetFromCollection, hc]
      simpa using h
    | some c =>
      cases ha : getAsset s aid with
      | none =>
        simp only [applyCollOp, removeAssetFromCollection, hc, ha]
        simpa using h
      | some a =>
        simp only [applyCollOp, removeAssetFromCollection, hc, ha]
        by_cases hm : aid ∈ (kvGet s.byCollection cid).getD []
        · rw [if_neg (not_not_intro hm)]
          intro p hp
          rcases mem_kvSet (by simpa using hp) with hp' | hp'
          · subst hp'
            show (0:Int) ≤ max 0 (c.assetCount - 1)
            omega
          · exact h p hp'
        · rw [if_pos hm]
          simpa using h

/-- Claim C10: over any sequence of add/remove membership calls the
denormalized `assetCount` of every stored collection stays non-negative, and
a successful removal of a current member stores
`max 0 (assetCount - 1)`. -/
theorem collectionCount_never_negative :
    (∀ (s : Store) (ops : List CollOp),
      (∀ p ∈ s.collections, 0 ≤ p.2.assetCount) →
      ∀ p ∈ (applyCollOps s ops).collections, 0 ≤ p.2.assetCount)
    ∧ (∀ (s : Store) (now : Nat) (cid aid : String) (c : Collection)
        (a : Asset),
        getCollection s cid = some c → getAsset s aid = some a →
        aid ∈ (kvGet s.byCollection cid).getD [] →
        ∀ s' : Store, removeAssetFromCollection s now cid aid = some s' →
          getCollection s' cid
            = some { c with
                assetCount := max 0 (c.assetCount - 1),
                updatedAt := now,
                coverAssetId :=
                  (if c.coverAssetId = some aid
                   then Option.none else c.coverAssetId) }) := by
  constructor
  · intro s ops
    induction ops generalizing s with
    | nil => intro h; simpa [applyCollOps] using h
    | cons op rest ih =>
      intro h
      have : applyCollOps s (op :: rest)
          = applyCollOps (applyCollOp s op) rest := by
        simp [applyCollOps]
      rw [this]
      exact ih _ (collCount_step s op h)
  · intro s now cid aid c a hc ha hm s' hrem
    unfold removeAssetFromCollection at hrem
    simp only [hc, ha] at hrem
    rw [if_neg (by simpa using hm)] at hrem
    obtain rfl : _ = s' := Option.some_inj.mp hrem
    unfold getCollection
    simp only
    rw [kvGet_kvSet]
    simp

theorem collectionCount_never_negative_witness :
    (∀ p ∈ storeAC.collections, 0 ≤ p.2.assetCount)
    ∧ (∀ p ∈ (applyCollOps storeAC
        [CollOp.add 5 "c1" "a1", CollOp.remove 6 "c1" "a1",
         CollOp.remove 7 "c1" "a1"]).collections, 0 ≤ p.2.assetCount) :=
  ⟨by decide,
    collectionCount_never_negative.1 storeAC
      [CollOp.add 5 "c1" "a1", CollOp.remove 6 "c1" "a1",
       CollOp.remove 7 "c1" "a1"] (by decide)⟩

/-! ## Job polling -/

theorem pollLoop_mem (queries : Nat → StatusQueryResult) :
    ∀ fuel i, pollLoop queries fuel i ∈ terminalStatuses
      ∨ pollLoop queries fuel i = "timeout" := by
  intro fuel
  induction fuel with
  | zero => intro i; right; rfl
  | succ n ih =>
    intro i
    simp only [pollLoop]
    by_cases h : getFfmpegJobStatus (queries i) ∈ terminalStatuses
    · rw [if_pos h]
      exact Or.inl h
    · rw [if_neg h]
      exact ih (i + 1)

theorem pollLoop_timeout_iff (queries : Nat → StatusQueryResult) :
    ∀ fuel i, (pollLoop queries fuel i = "timeout"
      ↔ ∀ j, j < fuel →
          getFfmpegJobStatus (queries (i + j)) ∉ terminalStatuses) := by
  intro fuel
  induction fuel with
  | zero => intro i; simp [pollLoop]
  | succ n ih =>
    intro i
    simp only [pollLoop]
    by_cases h : getFfmpegJobStatus (queries i) ∈ terminalStatuses
    · rw [if_pos h]
      constructor
      · intro he
        rw [he] at h
        simp [terminalStatuses] at h
      · intro hall
        exact absurd (by simpa using h) (hall 0 (by omega))
    · rw [if_neg h]
      rw [ih (i + 1)]
      constructor
      · intro hall j hj
        cases j with
        | zero => simpa using h
        | succ jj =>
          have hres := hall jj (by omega)
          have heq : i + 1 + jj = i + (jj + 1) := by omega
          rw [heq] at hres
          exact hres
      · intro hall j hj
        have hres := hall (j + 1) (by omega)
        have heq : i + (j + 1) = i + 1 + j := by omega
        rw [heq] at hres
        exact hres

/-- Claim C9: the polling loop is total (never raises) and returns one of
the terminal statuses or the synthetic `"timeout"`; it times out exactly
when no poll within the wait bound observes a terminal status; a throwing
status query is reported as `"unknown"`, which is not terminal, so the loop
simply continues with the next poll. -/
theorem waitForFfmpegJob_terminal (queries : Nat → StatusQueryResult)
    (maxWaitMs : Nat) :
    (waitForFfmpegJob queries maxWaitMs ∈ terminalStatuses
      ∨ waitForFfmpegJob queries maxWaitMs = "timeout")
    ∧ (waitForFfmpegJob queries maxWaitMs = "timeout"
        ↔ ∀ i, 2000 * i < maxWaitMs →
            getFfmpegJobStatus (queries i) ∉ terminalStatuses)
    ∧ getFfmpegJobStatus StatusQueryResult.threw = "unknown"
    ∧ (∀ (fuel i : Nat), queries i = StatusQueryResult.threw →
        pollLoop queries (fuel + 1) i = pollLoop queries fuel (i + 1)) := by
  refine ⟨pollLoop_mem queries _ 0, ?_, rfl, ?_⟩
  · unfold waitForFfmpegJob
    rw [pollLoop_timeout_iff queries ((maxWaitMs + 1999) / 2000) 0]
    constructor
    · intro hall i hlt
      have hi : i < (maxWaitMs + 1999) / 2000 := by omega
      simpa using hall i hi
    · intro hall j hj
      have hlt : 2000 * j < maxWaitMs := by omega
      simpa using hall j hlt
  · intro fuel i hq
    simp [pollLoop, hq, getFfmpegJobStatus, terminalStatuses]

theorem waitForFfmpegJob_terminal_witness :
    waitForFfmpegJob (fun i =>
        if i < 2 then StatusQueryResult.threw
        else StatusQueryResult.found (some "Complete")) 10000 ∈ terminalStatuses
    ∨ waitForFfmpegJob (fun i =>
        if i < 2 then StatusQueryResult.threw
        else StatusQueryResult.found (some "Complete")) 10000 = "timeout" :=
  (waitForFfmpegJob_terminal (fun i =>
      if i < 2 then StatusQueryResult.threw
      else StatusQueryResult.found (some "Complete")) 10000).1

/-! ## Deletion completeness -/

theorem srem_eq_filter (s : List String) (x : String) :
    srem s x = s.filter (fun y => decide (y ≠ x)) := by
  induction s with
  | nil => rfl
  | cons z rest ih =>
    by_cases hz : z = x
    · simp [srem, hz, ih, List.filter_cons]
    · simp [srem, hz, ih, List.filter_cons]

theorem mem_srem_iff (s : List String) (x y : String) :
    y ∈ srem s x ↔ y ∈ s ∧ y ≠ x := by
  rw [srem_eq_filter]
  simp [List.mem_filter]

theorem not_mem_srem_self (s : List String) (x : String) : x ∉ srem s x := by
  intro h
  exact ((mem_srem_iff s x x).mp h).2 rfl

theorem kvGet_mapSrem_ne (m : List (String × List String)) {k c : String}
    (x : String) (h : c ≠ k) : kvGet (mapSrem m k x) c = kvGet m c := by
  unfold mapSrem
  cases hk : kvGet m k with
  | none => rfl
  | some s₀ =>
    rw [kvGet_kvSet]
    simp [h]

/-- Tracing a member back through a fold of SREMs: if `x` is still in the
set stored at `c` afterwards, it was there before and `c` was not one of
the removed keys. -/
theorem foldl_mapSrem_origin (ks : List String) (x : String) :
    ∀ (m : List (String × List String)) (c : String) (xs : List String),
      kvGet (ks.foldl (fun m k => mapSrem m k x) m) c = some xs →
      x ∈ xs →
      ∃ xs₀, kvGet m c = some xs₀ ∧ x ∈ xs₀ ∧ c ∉ ks := by
  induction ks with
  | nil =>
    intro m c xs hg hx
    exact ⟨xs, hg, hx, by simp⟩
  | cons k₁ rest ih =>
    intro m c xs hg hx
    simp only [List.foldl_cons] at hg
    obtain ⟨xs₀, hg₀, hx₀, hnotin⟩ := ih (mapSrem m k₁ x) c xs hg hx
    by_cases hc : c = k₁
    · subst hc
      exfalso
      unfold mapSrem at hg₀
      cases hk : kvGet m c with
      | none =>
        rw [hk] at hg₀
        exact Option.noConfusion (hk ▸ hg₀)
      | some s₀ =>
        rw [hk] at hg₀
        rw [kvGet_kvSet] at hg₀
        have hxs : srem s₀ x = xs₀ := by simpa using hg₀
        subst hxs
        exact not_mem_srem_self s₀ x hx₀
    · rw [kvGet_mapSrem_ne m x hc] at hg₀
      refine ⟨xs₀, hg₀, hx₀, ?_⟩
      intro hmem
      rcases List.mem_cons.mp hmem with hmem | hmem
      · exact hc hmem
      · exact hnotin hmem

theorem deleteAsset_assetsIndex {s : Store} {id : String} {asset : Asset}
    (hg : getAsset s id = some asset) :
    (deleteAsset s id).2.assetsIndex = kvDel s.assetsIndex id := by
  simp only [deleteAsset, hg, removeAssetFromSearchIndex]

theorem deleteAsset_byCollection {s : Store} {id : String} {asset : Asset}
    (hg : getAsset s id = some asset) :
    (deleteAsset s id).2.byCollection
      = asset.collections.foldl (fun m cid => mapSrem m cid id)
          s.byCollection := by
  simp only [deleteAsset, hg, removeAssetFromSearchIndex]

theorem deleteAsset_searchWord {s : Store} {id : String} {asset : Asset}
    (hg : getAsset s id = some asset) :
    (deleteAsset s id).2.searchWord
      = (extractWords asset).foldl (fun m w => mapSrem m w asset.id)
          s.searchWord := by
  simp only [deleteAsset, hg, removeAssetFromSearchIndex]

/-- Claim C6: `deleteAsset` on a missing id returns `false` and changes
nothing; on a present id (in a well-keyed store whose dangling index
references, if any, all point at the asset's own words and collections) it
returns `true` and afterwards the id is gone from the records, the ordering
index, every word-index set and every membership set, with tag counters
decremented per case-folded tag occurrence and entries ≤ 0 pruned. -/
theorem deleteAsset_completeness (s : Store) (id : String) :
    (getAsset s id = Option.none → deleteAsset s id = (false, s))
    ∧ (∀ a : Asset, getAsset s id = some a → a.id = id →
        (s.assets.map Prod.fst).Nodup →
        (s.assetsIndex.map Prod.fst).Nodup →
        (s.tagsAll.map Prod.fst).Nodup →
        (∀ p ∈ s.searchWord, id ∈ p.2 → p.1 ∈ extractWords a) →
        (∀ p ∈ s.byCollection, id ∈ p.2 → p.1 ∈ a.collections) →
        (deleteAsset s id).1 = true
        ∧ getAsset (deleteAsset s id).2 id = Option.none
        ∧ kvGet (deleteAsset s id).2.assetsIndex id = Option.none
        ∧ (∀ w xs, kvGet (deleteAsset s id).2.searchWord w = some xs →
            id ∉ xs)
        ∧ (∀ c xs, kvGet (deleteAsset s id).2.byCollection c = some xs →
            id ∉ xs)
        ∧ (∀ t, tagScore (deleteAsset s id).2.tagsAll t
            = (if 0 < tagScore s.tagsAll t - ((a.tags.map lower).count t : Int)
               then tagScore s.tagsAll t - ((a.tags.map lower).count t : Int)
               else 0))
        ∧ (∀ p ∈ (deleteAsset s id).2.tagsAll, 0 < p.2)) := by
  constructor
  · intro hg
    simp only [deleteAsset, hg]
  · intro a hg hid hA hI hT hW hC
    refine ⟨by simp only [deleteAsset, hg], ?_, ?_, ?_, ?_, ?_, ?_⟩
    · show kvGet (deleteAsset s id).2.assets id = Option.none
      rw [deleteAsset_assets hg]
      exact kvGet_kvDel_self hA
    · rw [deleteAsset_assetsIndex hg]
      exact kvGet_kvDel_self hI
    · intro w xs hgx hmem
      rw [deleteAsset_searchWord hg, hid] at hgx
      obtain ⟨xs₀, hg₀, hx₀, hnotin⟩ :=
        foldl_mapSrem_origin (extractWords a) id s.searchWord w xs hgx hmem
      exact hnotin (hW (w, xs₀) (kvGet_mem hg₀) hx₀)
    · intro c xs hgx hmem
      rw [deleteAsset_byCollection hg] at hgx
      obtain ⟨xs₀, hg₀, hx₀, hnotin⟩ :=
        foldl_mapSrem_origin a.collections id s.byCollection c xs hgx hmem
      exact hnotin (hC (c, xs₀) (kvGet_mem hg₀) hx₀)
    · intro t
      have hnn : ((a.tags.foldl (fun m tag => zincrby m (-1) (lower tag))
          s.tagsAll).map Prod.fst).Nodup := by
        rw [← List.foldl_map]
        exact nodup_fst_foldl_zincrby _ _ hT
      rw [deleteAsset_tagsAll hg, tagScore_prune t hnn, ← List.foldl_map,
        tagScore_foldl_zincrby]
      have : tagScore s.tagsAll t + (-1) * ((a.tags.map lower).count t : Int)
          = tagScore s.tagsAll t - ((a.tags.map lower).count t : Int) := by
        ring
      rw [this]
    · intro p hp
      rw [deleteAsset_tagsAll hg] at hp
      exact mem_pruneNonPositive hp

/-! ## Collection deletion cascade -/

theorem foldl_rewrite_not_mem (cid : String) (now : Nat) (l : List Asset) :
    ∀ (m : List (String × Asset)) (k : String), (∀ a ∈ l, a.id ≠ k) →
      kvGet (l.foldl (fun m a =>
        kvSet m a.id
          { a with
            collections := a.collections.filter (fun c => decide (c ≠ cid)),
            updatedAt := now }) m) k = kvGet m k := by
  induction l with
  | nil => intro m k _; rfl
  | cons b rest ih =>
    intro m k h
    simp only [List.foldl_cons]
    rw [ih _ k (fun a ha => h a (List.mem_cons_of_mem _ ha)), kvGet_kvSet]
    simp [Ne.symm (h b (List.mem_cons_self _ _))]

theorem foldl_rewrite_mem (cid : String) (now : Nat) (l : List Asset) :
    ∀ (m : List (String × Asset)) (k : String),
      (∃ a ∈ l, a.id = k) →
      ∃ a, a ∈ l ∧ a.id = k ∧
        kvGet (l.foldl (fun m a =>
          kvSet m a.id
            { a with
              collections := a.collections.filter (fun c => decide (c ≠ cid)),
              updatedAt := now }) m) k
          = some { a with
              collections := a.collections.filter (fun c => decide (c ≠ cid)),
              updatedAt := now } := by
  induction l with
  | nil =>
    rintro m k ⟨a, ha, _⟩
    simp at ha
  | cons b rest ih =>
    intro m k hex
    simp only [List.foldl_cons]
    by_cases hr : ∃ a ∈ rest, a.id = k
    · obtain ⟨a, ha, hak, hget⟩ := ih _ k hr
      exact ⟨a, List.mem_cons_of_mem _ ha, hak, hget⟩
    · obtain ⟨a, ha, hak⟩ := hex
      rcases List.mem_cons.mp ha with rfl | ha'
      · refine ⟨a, List.mem_cons_self _ _, hak, ?_⟩
        rw [foldl_rewrite_not_mem cid now rest _ k
          (fun x hx hxk => hr ⟨x, hx, hxk⟩), kvGet_kvSet]
        simp [hak]
      · exact absurd ⟨a, ha', hak⟩ hr

theorem deleteCollection_collections {s : Store} (now : Nat) {cid : String}
    {c : Collection} (hc : getCollection s cid = some c) :
    (deleteCollection s now cid).2.collections = kvDel s.collections cid := by
  simp only [deleteCollection, hc]

theorem deleteCollection_collectionsIndex {s : Store} (now : Nat)
    {cid : String} {c : Collection} (hc : getCollection s cid = some c) :
    (deleteCollection s now cid).2.collectionsIndex
      = kvDel s.collectionsIndex cid := by
  simp only [deleteCollection, hc]

theorem deleteCollection_byCollection {s : Store} (now : Nat) {cid : String}
    {c : Collection} (hc : getCollection s cid = some c) :
    (deleteCollection s now cid).2.byCollection
      = kvDel s.byCollection cid := by
  simp only [deleteCollection, hc]

theorem deleteCollection_assets {s : Store} (now : Nat) {cid : String}
    {c : Collection} (hc : getCollection s cid = some c) :
    (deleteCollection s now cid).2.assets
      = (((kvGet s.byCollection cid).getD []).filterMap
          (fun aid => kvGet s.assets aid)).foldl
          (fun m a =>
            kvSet m a.id
              { a with
                collections := a.collections.filter (fun c => decide (c ≠ cid)),
                updatedAt := now }) s.assets := by
  simp only [deleteCollection, hc]

/-- Claim C8: a successful `deleteCollection` removes the collection's
record, its index entry and its membership set, and every member asset whose
record survives has the deleted collection id removed from its `collections`
field (the store being well-keyed on the members). -/
theorem deleteCollection_cascade (s : Store) (now : Nat) (cid : String)
    (c : Collection) (hc : getCollection s cid = some c)
    (hCn : (s.collections.map Prod.fst).Nodup)
    (hIn : (s.collectionsIndex.map Prod.fst).Nodup)
    (hBn : (s.byCollection.map Prod.fst).Nodup)
    (hkeys : ∀ aid ∈ (kvGet s.byCollection cid).getD [],
      ∀ p ∈ s.assets, p.1 = aid → p.2.id = aid) :
    (deleteCollection s now cid).1 = true
    ∧ getCollection (deleteCollection s now cid).2 cid = Option.none
    ∧ kvGet (deleteCollection s now cid).2.collectionsIndex cid = Option.none
    ∧ kvGet (deleteCollection s now cid).2.byCollection cid = Option.none
    ∧ (∀ aid ∈ (kvGet s.byCollection cid).getD [],
        ∀ a' : Asset,
          getAsset (deleteCollection s now cid).2 aid = some a' →
            cid ∉ a'.collections) := by
  refine ⟨by simp only [deleteCollection, hc], ?_, ?_, ?_, ?_⟩
  · show kvGet (deleteCollection s now cid).2.collections cid = Option.none
    rw [deleteCollection_collections now hc]
    exact kvGet_kvDel_self hCn
  · rw [deleteCollection_collectionsIndex now hc]
    exact kvGet_kvDel_self hIn
  · rw [deleteCollection_byCollection now hc]
    exact kvGet_kvDel_self hBn
  · intro aid hmem a' ha'
    rw [show getAsset (deleteCollection s now cid).2 aid
        = kvGet (deleteCollection s now cid).2.assets aid from rfl,
      deleteCollection_assets now hc] at ha'
    by_cases hex : ∃ b ∈ ((kvGet s.byCollection cid).getD []).filterMap
        (fun x => kvGet s.assets x), b.id = aid
    · obtain ⟨b, _, _, hget⟩ := foldl_rewrite_mem cid now _ s.assets aid hex
      rw [hget] at ha'
      obtain rfl : _ = a' := Option.some_inj.mp ha'
      simp
    · rw [foldl_rewrite_not_mem cid now _ s.assets aid
        (fun x hx hxk => hex ⟨x, hx, hxk⟩)] at ha'
      exact absurd
        ⟨a', List.mem_filterMap.mpr ⟨aid, hmem, ha'⟩,
          hkeys aid hmem (aid, a') (kvGet_mem ha') rfl⟩ hex

theorem deleteCollection_cascade_witness :
    (deleteCollection storeAC2 7 "c1").1 = true
    ∧ getCollection (deleteCollection storeAC2 7 "c1").2 "c1"
        = Option.none := by
  have h := deleteCollection_cascade storeAC2 7 "c1"
    { collC with assetCount := 1, updatedAt := 4 }
    (by decide) (by decide) (by decide) (by decide) (by decide)
  exact ⟨h.1, h.2.1⟩

theorem deleteAsset_completeness_witness :
    (deleteAsset storeAC2 "a1").1 = true
    ∧ getAsset (deleteAsset storeAC2 "a1").2 "a1" = Option.none := by
  have h := (deleteAsset_completeness storeAC2 "a1").2
    { assetA with collections := ["c1"], updatedAt := 4 }
    (by decide) (by decide) (by decide) (by decide) (by decide)
    (by decide) (by decide)
  exact ⟨h.1, h.2.1⟩

/-! ## The derived-artifact pipeline -/

theorem kvGet_mapSadd_ne (m : List (String × List String)) {k c : String}
    (x : String) (h : c ≠ k) : kvGet (mapSadd m k x) c = kvGet m c := by
  unfold mapSadd
  rw [kvGet_kvSet]
  simp [h]

theorem kvGet_foldl_mapSrem_not_mem (ws : List String) (x : String) :
    ∀ (m : List (String × List String)) (w : String), w ∉ ws →
      kvGet (ws.foldl (fun m k => mapSrem m k x) m) w = kvGet m w := by
  induction ws with
  | nil => intro m w _; rfl
  | cons k₁ rest ih =>
    intro m w hw
    simp only [List.foldl_cons]
    rw [ih _ w (fun h => hw (List.mem_cons_of_mem _ h)),
      kvGet_mapSrem_ne m x (fun h => hw (by rw [h]; exact List.mem_cons_self _ _))]

theorem kvGet_foldl_mapSrem_mem (ws : List String) (x : String)
    (hnd : ws.Nodup) :
    ∀ (m : List (String × List String)) (w : String), w ∈ ws →
      kvGet (ws.foldl (fun m k => mapSrem m k x) m) w
        = (kvGet m w).map (fun s => srem s x) := by
  induction ws with
  | nil => intro m w hw; simp at hw
  | cons k₁ rest ih =>
    intro m w hw
    simp only [List.nodup_cons] at hnd
    simp only [List.foldl_cons]
    rcases List.mem_cons.mp hw with rfl | hw'
    · rw [kvGet_foldl_mapSrem_not_mem rest x _ w hnd.1]
      unfold mapSrem
      cases hk : kvGet m w with
      | none => simp [hk]
      | some s₀ =>
        rw [kvGet_kvSet]
        simp [hk]
    · rw [ih hnd.2 _ w hw',
        kvGet_mapSrem_ne m x (fun h => hnd.1 (by rw [← h]; exact hw'))]

theorem kvGet_foldl_mapSadd_not_mem (ws : List String) (x : String) :
    ∀ (m : List (String × List String)) (w : String), w ∉ ws →
      kvGet (ws.foldl (fun m k => mapSadd m k x) m) w = kvGet m w := by
  induction ws with
  | nil => intro m w _; rfl
  | cons k₁ rest ih =>
    intro m w hw
    simp only [List.foldl_cons]
    rw [ih _ w (fun h => hw (List.mem_cons_of_mem _ h)),
      kvGet_mapSadd_ne m x (fun h => hw (by rw [h]; exact List.mem_cons_self _ _))]

theorem kvGet_foldl_mapSadd_mem (ws : List String) (x : String)
    (hnd : ws.Nodup) :
    ∀ (m : List (String × List String)) (w : String), w ∈ ws →
      kvGet (ws.foldl (fun m k => mapSadd m k x) m) w
        = some (sadd ((kvGet m w).getD []) x) := by
  induction ws with
  | nil => intro m w hw; simp at hw
  | cons k₁ rest ih =>
    intro m w hw
    simp only [List.nodup_cons] at hnd
    simp only [List.foldl_cons]
    rcases List.mem_cons.mp hw with rfl | hw'
    · rw [kvGet_foldl_mapSadd_not_mem rest x _ w hnd.1]
      unfold mapSadd
      rw [kvGet_kvSet]
      simp
    · rw [ih hnd.2 _ w hw',
        kvGet_mapSadd_ne m x (fun h => hnd.1 (by rw [← h]; exact hw'))]

theorem mem_dedupFirstAux (l : List String) :
    ∀ (seen : List String) (x : String),
      x ∈ dedupFirstAux l seen ↔ x ∈ l ∧ x ∉ seen := by
  induction l with
  | nil => intro seen x; simp [dedupFirstAux]
  | cons y rest ih =>
    intro seen x
    by_cases hy : y ∈ seen
    · rw [show dedupFirstAux (y :: rest) seen = dedupFirstAux rest seen from
        by simp [dedupFirstAux, hy]]
      rw [ih seen x]
      constructor
      · rintro ⟨hx, hs⟩
        exact ⟨List.mem_cons_of_mem _ hx, hs⟩
      · rintro ⟨hx, hs⟩
        rcases List.mem_cons.mp hx with rfl | hx'
        · exact absurd hy hs
        · exact ⟨hx', hs⟩
    · rw [show dedupFirstAux (y :: rest) seen
          = y :: dedupFirstAux rest (y :: seen) from by simp [dedupFirstAux, hy]]
      constructor
      · intro hx
        rcases List.mem_cons.mp hx with rfl | hx'
        · exact ⟨List.mem_cons_self _ _, hy⟩
        · obtain ⟨h1, h2⟩ := (ih _ x).mp hx'
          exact ⟨List.mem_cons_of_mem _ h1,
            fun h => h2 (List.mem_cons_of_mem _ h)⟩
      · rintro ⟨hx, hs⟩
        by_cases hxy : x = y
        · exact hxy ▸ List.mem_cons_self _ _
        · rcases List.mem_cons.mp hx with rfl | hx'
          · exact absurd rfl hxy
          · refine List.mem_cons_of_mem _ ((ih _ x).mpr ⟨hx', ?_⟩)
            intro h
            rcases List.mem_cons.mp h with h | h
            · exact hxy h
            · exact hs h

theorem nodup_dedupFirstAux (l : List String) :
    ∀ seen : List String, (dedupFirstAux l seen).Nodup := by
  induction l with
  | nil => intro seen; simp [dedupFirstAux]
  | cons y rest ih =>
    intro seen
    by_cases hy : y ∈ seen
    · simpa [dedupFirstAux, hy] using ih seen
    · rw [show dedupFirstAux (y :: rest) seen
          = y :: dedupFirstAux rest (y :: seen) from by simp [dedupFirstAux, hy]]
      refine List.nodup_cons.mpr ⟨?_, ih _⟩
      intro hmem
      exact ((mem_dedupFirstAux rest _ y).mp hmem).2 (List.mem_cons_self _ _)

theorem extractWords_nodup (a : Asset) : (extractWords a).Nodup :=
  List.Nodup.filter _ (nodup_dedupFirstAux _ _)

theorem updateAsset_assetsIndex {s : Store} (now : Nat) {id : String}
    (u : AssetUpdate) {existing : Asset} (hg : getAsset s id = some existing) :
    (updateAsset s now id u).2.assetsIndex = s.assetsIndex := by
  simp only [updateAsset, hg, indexAssetForSearch, removeAssetFromSearchIndex]

theorem updateAsset_collections {s : Store} (now : Nat) {id : String}
    (u : AssetUpdate) {existing : Asset} (hg : getAsset s id = some existing) :
    (updateAsset s now id u).2.collections = s.collections := by
  simp only [updateAsset, hg, indexAssetForSearch, removeAssetFromSearchIndex]

theorem updateAsset_collectionsIndex {s : Store} (now : Nat) {id : String}
    (u : AssetUpdate) {existing : Asset} (hg : getAsset s id = some existing) :
    (updateAsset s now id u).2.collectionsIndex = s.collectionsIndex := by
  simp only [updateAsset, hg, indexAssetForSearch, removeAssetFromSearchIndex]

theorem updateAsset_byCollection {s : Store} (now : Nat) {id : String}
    (u : AssetUpdate) {existing : Asset} (hg : getAsset s id = some existing) :
    (updateAsset s now id u).2.byCollection
      = (existing.collections.filter
            (fun c => decide (c ∉ u.collections.getD existing.collections))).foldl
          (fun m c => mapSrem m c id)
          (((u.collections.getD existing.collections).filter
              (fun c => decide (c ∉ existing.collections))).foldl
            (fun m c => mapSadd m c id) s.byCollection) := by
  simp only [updateAsset, hg, indexAssetForSearch, removeAssetFromSearchIndex]

theorem updateAsset_searchWord {s : Store} (now : Nat) {id : String}
    (u : AssetUpdate) {existing : Asset} (hg : getAsset s id = some existing) :
    (updateAsset s now id u).2.searchWord
      = (extractWords (applyUpdate existing u now)).foldl
          (fun m w => mapSadd m w (applyUpdate existing u now).id)
          ((extractWords existing).foldl (fun m w => mapSrem m w existing.id)
            s.searchWord) := by
  simp only [updateAsset, hg, indexAssetForSearch, removeAssetFromSearchIndex]

theorem updateAsset_tagsAll_of_tags_none {s : Store} (now : Nat) {id : String}
    {u : AssetUpdate} {existing : Asset} (hg : getAsset s id = some existing)
    (ht : u.tags = Option.none) :
    (updateAsset s now id u).2.tagsAll = s.tagsAll := by
  rw [updateAsset_tagsAll now u hg, ht]
  have h1 : ((existing.tags.map lower).filter
      (fun t => decide (t ∉ (Option.none.getD existing.tags).map lower))) = [] :=
    List.filter_eq_nil_iff.mpr (by intro b hb; simpa using hb)
  have h2 : (((Option.none.getD existing.tags : List String).map lower).filter
      (fun t => decide (t ∉ existing.tags.map lower))) = [] :=
    List.filter_eq_nil_iff.mpr (by intro b hb; simpa using hb)
  rw [h1, h2]
  rfl

theorem updateAsset_byCollection_of_collections_none {s : Store} (now : Nat)
    {id : String} {u : AssetUpdate} {existing : Asset}
    (hg : getAsset s id = some existing)
    (hcol : u.collections = Option.none) :
    (updateAsset s now id u).2.byCollection = s.byCollection := by
  rw [updateAsset_byCollection now u hg, hcol]
  have h1 : (existing.collections.filter
      (fun c => decide (c ∉ (Option.none.getD existing.collections : List String)))) = [] :=
    List.filter_eq_nil_iff.mpr (by intro b hb; simpa using hb)
  have h2 : (((Option.none.getD existing.collections : List String)).filter
      (fun c => decide (c ∉ existing.collections))) = [] :=
    List.filter_eq_nil_iff.mpr (by intro b hb; simpa using hb)
  rw [h1, h2]
  rfl

theorem updateAsset_searchWord_of_text_none {s : Store} (now : Nat)
    {id : String} {u : AssetUpdate} {existing : Asset}
    (hg : getAsset s id = some existing) (ht : u.tags = Option.none)
    (hti : u.title = Option.none) (hd : u.description = Option.none) :
    (updateAsset s now id u).2.searchWord
      = (extractWords existing).foldl (fun m w => mapSadd m w existing.id)
          ((extractWords existing).foldl (fun m w => mapSrem m w existing.id)
            s.searchWord) := by
  rw [updateAsset_searchWord now u hg]
  have hwords : extractWords (applyUpdate existing u now)
      = extractWords existing := by
    unfold extractWords applyUpdate
    rw [ht, hti, hd]
    simp
  have hid : (applyUpdate existing u now).id = existing.id := rfl
  rw [hwords, hid]

/-- Claim C2 counterexample: for a non-video asset the pipeline does not
leave the rest of the state untouched — it refreshes the record's update
timestamp (from 3 to the pipeline's clock 8) while setting
`proxyStatus = none`. -/
theorem pipeline_claim_counterexample :
    (getAsset (triggerProxyGeneration ⟨"Complete", "Complete"⟩ storeD 8 9
        assetD) "d1").map Asset.proxyStatus = some ProxyStatus.none
    ∧ (getAsset (triggerProxyGeneration ⟨"Complete", "Complete"⟩ storeD 8 9
        assetD) "d1").map Asset.updatedAt = some 8
    ∧ assetD.updatedAt = 3 := by decide

/-- Claim C2 (amended): for a stored asset, the pipeline (i) on a non-video
MIME type sets `proxyStatus = none`, refreshing the update timestamp, and
changes nothing else (the word index is rewritten in place, so it is
unchanged as sets provided it already indexed the asset); (ii) on a video
whose proxy job ends non-`Complete` sets `proxyStatus = failed` and leaves
the proxy and thumbnail keys untouched; (iii) on proxy `Complete` sets
`proxyStatus = ready` with the proxy key, and the thumbnail key exactly when
the thumbnail job completed. -/
theorem pipeline_state_machine (o : JobOracle) (s : Store) (t1 t2 : Nat)
    (asset a : Asset) (hg : getAsset s asset.id = some a) :
    (strStarts asset.mimeType "video/" = false →
      (getAsset (triggerProxyGeneration o s t1 t2 asset) asset.id
          = some { a with proxyStatus := ProxyStatus.none, updatedAt := t1 }
        ∧ (∀ k, k ≠ asset.id →
            kvGet (triggerProxyGeneration o s t1 t2 asset).assets k
              = kvGet s.assets k)
        ∧ (triggerProxyGeneration o s t1 t2 asset).tagsAll = s.tagsAll
        ∧ (triggerProxyGeneration o s t1 t2 asset).assetsIndex = s.assetsIndex
        ∧ (triggerProxyGeneration o s t1 t2 asset).byCollection
            = s.byCollection
        ∧ (triggerProxyGeneration o s t1 t2 asset).collections = s.collections
        ∧ (triggerProxyGeneration o s t1 t2 asset).collectionsIndex
            = s.collectionsIndex
        ∧ ((∀ w ∈ extractWords a, a.id ∈ (kvGet s.searchWord w).getD []) →
            ∀ w x,
              x ∈ (kvGet (triggerProxyGeneration o s t1 t2 asset).searchWord
                    w).getD []
                ↔ x ∈ (kvGet s.searchWord w).getD [])))
    ∧ (strStarts asset.mimeType "video/" = true → o.proxyResult ≠ "Complete" →
        getAsset (triggerProxyGeneration o s t1 t2 asset) asset.id
          = some { a with proxyStatus := ProxyStatus.failed, updatedAt := t2 })
    ∧ (strStarts asset.mimeType "video/" = true → o.proxyResult = "Complete" →
        getAsset (triggerProxyGeneration o s t1 t2 asset) asset.id
          = some { a with
              proxyStatus := ProxyStatus.ready,
              proxyKey := some ("proxies/" ++ asset.id ++ "/proxy.mp4"),
              thumbnailKey :=
                (if o.thumbResult = "Complete"
                 then some ("thumbnails/" ++ asset.id ++ "/thumb.jpg")
                 else a.thumbnailKey),
              updatedAt := t2 }) := by
  refine ⟨?_, ?_, ?_⟩
  · intro hv
    have hpipe : triggerProxyGeneration o s t1 t2 asset
        = (updateAsset s t1 asset.id
            { proxyStatus := some ProxyStatus.none }).2 := by
      unfold triggerProxyGeneration
      rw [if_pos (by simp [hv])]
    rw [hpipe]
    refine ⟨?_, ?_, ?_, ?_, ?_, ?_, ?_, ?_⟩
    · show kvGet _ asset.id = _
      rw [updateAsset_assets t1 _ hg, kvGet_kvSet]
      simp only [if_pos rfl]
      rfl
    · intro k hk
      rw [updateAsset_assets t1 _ hg, kvGet_kvSet]
      simp [hk]
    · exact updateAsset_tagsAll_of_tags_none t1 hg rfl
    · exact updateAsset_assetsIndex t1 _ hg
    · exact updateAsset_byCollection_of_collections_none t1 hg rfl
    · exact updateAsset_collections t1 _ hg
    · exact updateAsset_collectionsIndex t1 _ hg
    · intro hcons w x
      rw [updateAsset_searchWord_of_text_none t1 hg rfl rfl rfl]
      by_cases hw : w ∈ extractWords a
      · rw [kvGet_foldl_mapSadd_mem _ _ (extractWords_nodup a) _ w hw,
          kvGet_foldl_mapSrem_mem _ _ (extractWords_nodup a) _ w hw]
        have hmem := hcons w hw
        cases hk : kvGet s.searchWord w with
        | none =>
          rw [hk] at hmem
          simp at hmem
        | some s₀ =>
          rw [hk] at hmem
          simp only [Option.getD_some] at hmem
          simp only [Option.map_some', Option.getD_some]
          rw [mem_sadd_iff]
          constructor
          · rintro (hx | rfl)
            · exact ((mem_srem_iff s₀ a.id x).mp hx).1
            · exact hmem
          · intro hx
            by_cases hxa : x = a.id
            · exact Or.inr hxa
            · exact Or.inl ((mem_srem_iff s₀ a.id x).mpr ⟨hx, hxa⟩)
      · rw [kvGet_foldl_mapSadd_not_mem _ _ _ w hw,
          kvGet_foldl_mapSrem_not_mem _ _ _ w hw]
  · intro hv hpr
    unfold triggerProxyGeneration
    rw [if_neg (by simp [hv]), if_pos hpr]
    have hg1 : getAsset (updateAsset s t1 asset.id
        { proxyStatus := some ProxyStatus.processing }).2 asset.id
        = some (applyUpdate a { proxyStatus := some ProxyStatus.processing } t1) := by
      show kvGet _ _ = _
      rw [updateAsset_assets t1 _ hg, kvGet_kvSet]
      simp
    show kvGet _ _ = _
    rw [updateAsset_assets t2 _ hg1, kvGet_kvSet]
    simp only [if_pos rfl]
    rfl
  · intro hv hpr
    unfold triggerProxyGeneration
    rw [if_neg (by simp [hv]), if_neg (not_not_intro hpr)]
    have hg1 : getAsset (updateAsset s t1 asset.id
        { proxyStatus := some ProxyStatus.processing }).2 asset.id
        = some (applyUpdate a { proxyStatus := some ProxyStatus.processing } t1) := by
      show kvGet _ _ = _
      rw [updateAsset_assets t1 _ hg, kvGet_kvSet]
      simp
    show kvGet _ _ = _
    rw [updateAsset_assets t2 _ hg1, kvGet_kvSet]
    simp only [if_pos rfl]
    by_cases hth : o.thumbResult = "Complete" <;> simp [hth, applyUpdate]

theorem pipeline_state_machine_witness :
    getAsset storeA "a1" = some assetA
    ∧ strStarts assetA.mimeType "video/" = true
    ∧ (JobOracle.mk "Complete" "Error").proxyResult = "Complete"
    ∧ getAsset (triggerProxyGeneration ⟨"Complete", "Error"⟩ storeA 8 9
        assetA) "a1"
        = some { assetA with
            proxyStatus := ProxyStatus.ready,
            proxyKey := some ("proxies/" ++ assetA.id ++ "/proxy.mp4"),
            thumbnailKey :=
              (if (JobOracle.mk "Complete" "Error").thumbResult = "Complete"
               then some ("thumbnails/" ++ assetA.id ++ "/thumb.jpg")
               else assetA.thumbnailKey),
            updatedAt := 9 } :=
  ⟨by decide, by decide, rfl,
    (pipeline_state_machine ⟨"Complete", "Error"⟩ storeA 8 9 assetA assetA
      (by decide)).2.2 (by decide) (by decide)⟩

/-! ## Search -/

theorem mem_insertDesc (a b : Asset) (l : List Asset) :
    b ∈ insertDesc a l ↔ b = a ∨ b ∈ l := by
  induction l with
  | nil => simp [insertDesc]
  | cons c rest ih =>
    unfold insertDesc
    by_cases h : a.createdAt ≤ c.createdAt
    · rw [if_pos h]
      simp only [List.mem_cons, ih]
      tauto
    · rw [if_neg h]
      simp only [List.mem_cons]

theorem length_insertDesc (a : Asset) (l : List Asset) :
    (insertDesc a l).length = l.length + 1 := by
  induction l with
  | nil => rfl
  | cons c rest ih =>
    unfold insertDesc
    by_cases h : a.createdAt ≤ c.createdAt
    · rw [if_pos h]
      simp [ih]
    · rw [if_neg h]
      simp

theorem sorted_insertDesc (a : Asset) (l : List Asset)
    (h : l.Pairwise (fun x y : Asset => y.createdAt ≤ x.createdAt)) :
    (insertDesc a l).Pairwise (fun x y : Asset => y.createdAt ≤ x.createdAt) := by
  induction l with
  | nil => simp [insertDesc]
  | cons c rest ih =>
    rw [List.pairwise_cons] at h
    unfold insertDesc
    by_cases hc : a.createdAt ≤ c.createdAt
    · rw [if_pos hc]
      rw [List.pairwise_cons]
      refine ⟨?_, ih h.2⟩
      intro x hx
      rcases (mem_insertDesc a x rest).mp hx with rfl | hx'
      · exact hc
      · exact h.1 x hx'
    · rw [if_neg hc]
      rw [List.pairwise_cons]
      refine ⟨?_, List.pairwise_cons.mpr h⟩
      intro x hx
      rcases List.mem_cons.mp hx with rfl | hx'
      · omega
      · have := h.1 x hx'
        omega

theorem mem_sortByCreatedDesc (l : List Asset) (b : Asset) :
    b ∈ sortByCreatedDesc l ↔ b ∈ l := by
  induction l with
  | nil => simp [sortByCreatedDesc]
  | cons c rest ih =>
    unfold sortByCreatedDesc
    rw [mem_insertDesc, ih, List.mem_cons]

theorem length_sortByCreatedDesc (l : List Asset) :
    (sortByCreatedDesc l).length = l.length := by
  induction l with
  | nil => rfl
  | cons c rest ih =>
    unfold sortByCreatedDesc
    rw [length_insertDesc, ih]
    rfl

theorem sorted_sortByCreatedDesc (l : List Asset) :
    (sortByCreatedDesc l).Pairwise
      (fun x y : Asset => y.createdAt ≤ x.createdAt) := by
  induction l with
  | nil => simp [sortByCreatedDesc]
  | cons c rest ih => exact sorted_insertDesc c _ ih

theorem mem_intersectWordSets (s : Store) (toks : List String)
    (htoks : toks ≠ []) (i : String) :
    i ∈ intersectWordSets s toks
      ↔ ∀ w ∈ toks, i ∈ (kvGet s.searchWord w).getD [] := by
  cases toks with
  | nil => exact absurd rfl htoks
  | cons w rest =>
    cases rest with
    | nil => simp [intersectWordSets]
    | cons w2 rest2 =>
      show i ∈ ((kvGet s.searchWord w).getD []).filter _ ↔ _
      rw [List.mem_filter]
      simp only [List.all_eq_true, decide_eq_true_eq, List.forall_mem_cons]

/-- Claim C7: `searchAssets` tokenizes the lowercased query into word runs
of length ≥ 2; with no usable tokens it returns an empty result; otherwise
(given index sets of at most the page size, here 100) it returns exactly the
stored assets whose id lies in every token's word-index set — AND semantics,
with a single token read directly — sorted by creation time descending. -/
theorem searchAssets_correct (s : Store) (query : String)
    (hsize : ∀ p ∈ s.searchWord, p.2.length ≤ 100) :
    ((tokenize (lower query)).filter (fun w => decide (2 ≤ w.length)) = [] →
      searchAssets s query (some 1) (some 100) Option.none = ([], 0))
    ∧ List.Pairwise (fun x y : Asset => y.createdAt ≤ x.createdAt)
        (searchAssets s query (some 1) (some 100) Option.none).1
    ∧ (∀ a : Asset,
        a ∈ (searchAssets s query (some 1) (some 100) Option.none).1
          ↔ ∃ i : String,
              kvGet s.assets i = some a
              ∧ (tokenize (lower query)).filter
                  (fun w => decide (2 ≤ w.length)) ≠ []
              ∧ ∀ w ∈ (tokenize (lower query)).filter
                  (fun w => decide (2 ≤ w.length)),
                  i ∈ (kvGet s.searchWord w).getD []) := by
  by_cases h2 : (tokenize (lower query)).filter (fun w => decide (2 ≤ w.length)) = []
  · have hres : searchAssets s query (some 1) (some 100) Option.none = ([], 0) := by
      simp only [searchAssets]
      by_cases h1 : tokenize (lower query) = []
      · rw [if_pos (by simp [h1])]
      · rw [if_neg (by simp [List.isEmpty_iff, h1]),
          if_pos (by simp [List.isEmpty_iff, h2])]
    refine ⟨fun _ => hres, ?_, ?_⟩
    · rw [hres]
      simp
    · intro a
      rw [hres]
      simp [h2]
  · have h1 : tokenize (lower query) ≠ [] := by
      intro h
      exact h2 (by simp [h])
    by_cases h3 : intersectWordSets s
        ((tokenize (lower query)).filter (fun w => decide (2 ≤ w.length))) = []
    · have hres : searchAssets s query (some 1) (some 100) Option.none = ([], 0) := by
        simp only [searchAssets]
        rw [if_neg (by simp [List.isEmpty_iff, h1]),
          if_neg (by simp [List.isEmpty_iff, h2]),
          if_pos (by simp [List.isEmpty_iff, h3])]
      refine ⟨fun _ => hres, ?_, ?_⟩
      · rw [hres]
        simp
      · intro a
        rw [hres]
        simp only [List.not_mem_nil, false_iff]
        rintro ⟨i, _, _, hall⟩
        have hmem := (mem_intersectWordSets s _ h2 i).mpr hall
        rw [h3] at hmem
        exact List.not_mem_nil i hmem
    · have hres : searchAssets s query (some 1) (some 100) Option.none
          = ((sortByCreatedDesc
              ((intersectWordSets s ((tokenize (lower query)).filter
                  (fun w => decide (2 ≤ w.length)))).filterMap
                (fun i => kvGet s.assets i))).take 100,
             ((intersectWordSets s ((tokenize (lower query)).filter
                  (fun w => decide (2 ≤ w.length)))).filterMap
                (fun i => kvGet s.assets i)).length) := by
        simp only [searchAssets]
        rw [if_neg (by simp [List.isEmpty_iff, h1]),
          if_neg (by simp [List.isEmpty_iff, h2]),
          if_neg (by simp [List.isEmpty_iff, h3])]
        norm_num
        rfl
      have hlen : ((intersectWordSets s ((tokenize (lower query)).filter
          (fun w => decide (2 ≤ w.length)))).filterMap
            (fun i => kvGet s.assets i)).length ≤ 100 := by
        refine le_trans (List.length_filterMap_le _ _) ?_
        cases htk : (tokenize (lower query)).filter
            (fun w => decide (2 ≤ w.length)) with
        | nil => exact absurd htk h2
        | cons w rest =>
          have hfirst : ∀ l : List String,
              (intersectWordSets s (w :: l)).length
                ≤ ((kvGet s.searchWord w).getD []).length := by
            intro l
            cases l with
            | nil => exact le_refl _
            | cons w2 r2 =>
              show (List.filter _ _).length ≤ _
              exact List.length_filter_le _ _
          refine le_trans (hfirst rest) ?_
          cases hk : kvGet s.searchWord w with
          | none => simp
          | some xs =>
            simpa using hsize (w, xs) (kvGet_mem hk)
      have htake : (sortByCreatedDesc
          ((intersectWordSets s ((tokenize (lower query)).filter
              (fun w => decide (2 ≤ w.length)))).filterMap
            (fun i => kvGet s.assets i))).take 100
          = sortByCreatedDesc
              ((intersectWordSets s ((tokenize (lower query)).filter
                  (fun w => decide (2 ≤ w.length)))).filterMap
                (fun i => kvGet s.assets i)) := by
        refine List.take_of_length_le ?_
        rw [length_sortByCreatedDesc]
        exact hlen
      refine ⟨fun h => absurd h h2, ?_, ?_⟩
      · rw [hres]
        exact (sorted_sortByCreatedDesc _).sublist (List.take_sublist _ _)
      · intro a
        rw [hres]
        show a ∈ (sortByCreatedDesc _).take 100 ↔ _
        rw [htake, mem_sortByCreatedDesc]
        constructor
        · intro ha
          obtain ⟨i, hi, hki⟩ := List.mem_filterMap.mp ha
          exact ⟨i, hki, h2, (mem_intersectWordSets s _ h2 i).mp hi⟩
        · rintro ⟨i, hki, _, hall⟩
          exact List.mem_filterMap.mpr
            ⟨i, (mem_intersectWordSets s _ h2 i).mpr hall, hki⟩

theorem searchAssets_correct_witness :
    (∀ p ∈ storeA.searchWord, p.2.length ≤ 100)
    ∧ List.Pairwise (fun x y : Asset => y.createdAt ≤ x.createdAt)
        (searchAssets storeA "Buck BUNNY" (some 1) (some 100) Option.none).1 :=
  ⟨by decide, (searchAssets_correct storeA "Buck BUNNY" (by decide)).2.1⟩

end OMM
